import Mathlib

/-!
A formal model of the storage subsystem of the `note-book` repository:
the three storage providers (`BrowserStorage`, `LocalStorage`, `WebDAVStorage`)
and the `StorageManager` that wraps them with fallback and migration.

Runtime JavaScript values are modelled by the inductive `JVal`; a `Date`
object is a distinct constructor, because `JSON.stringify` turns it into an
ISO string while the browser provider's structured clone preserves it.
Stored text (files, WebDAV resources) is represented by its parsed `JVal`:
writing a value through `JSON.stringify` and reading it back through
`JSON.parse` is the function `jsonValue`, applied at every serialization
boundary.  Asynchronous operations that can throw are modelled with
`Except String`; stateful operations pass their backing state explicitly.
-/

set_option maxHeartbeats 1000000

namespace NoteBook

mutual
/-- Runtime JavaScript values: strings, numbers, booleans, `null`,
`Date` objects (tagged with their timestamp), arrays and plain objects
(ordered field lists, as JS objects are). -/
inductive JVal : Type where
| str : String → JVal
| num : Int → JVal
| bool : Bool → JVal
| null : JVal
| date : Nat → JVal
| arr : JList → JVal
| obj : JObj → JVal

inductive JList : Type where
| nil : JList
| cons : JVal → JList → JList

inductive JObj : Type where
| nil : JObj
| cons : String → JVal → JObj → JObj
end

/-- The elements of a modelled JS array, as a Lean list. -/
def JList.toList : JList → List JVal
| .nil => []
| .cons v t => v :: JList.toList t

/-- The fields of a modelled JS object, as a Lean association list. -/
def JObj.toList : JObj → List (String × JVal)
| .nil => []
| .cons k v t => (k, v) :: JObj.toList t

def JList.ofList : List JVal → JList
| [] => .nil
| v :: t => .cons v (JList.ofList t)

def JObj.ofList : List (String × JVal) → JObj
| [] => .nil
| (k, v) :: t => .cons k v (JObj.ofList t)

/-- Property read on an object: the first field with the given name. -/
def JObj.find : JObj → String → Option JVal
| .nil, _ => none
| .cons k v t, q => if k = q then some v else JObj.find t q

/-- JS property assignment / object-literal duplicate key: the value at an
existing key is replaced in place, a new key is appended. -/
def JObj.setProp : JObj → String → JVal → JObj
| .nil, q, w => .cons q w .nil
| .cons k v t, q, w => if k = q then .cons q w t else .cons k v (JObj.setProp t q w)

/-- Property read `v.k`; reading a named property of a non-object is
modelled as absent (`undefined`). -/
def jGet (v : JVal) (k : String) : Option JVal :=
  match v with
  | .obj fs => fs.find k
  | _ => none

/-- JS truthiness: `""`, `0`, `false` and `null` are falsy; every object
(including `Date` instances, arrays and plain objects) is truthy. -/
def truthy : JVal → Bool
| .str s => s != ""
| .num n => n != 0
| .bool b => b
| .null => false
| .date _ => true
| .arr _ => true
| .obj _ => true

/-- Abstract stand-in for `Date.prototype.toISOString`: the claims only
depend on the result being a string, not on its exact format. -/
def isoOfTime (t : Nat) : String := "iso:" ++ toString t

mutual
/-- `JSON.parse (JSON.stringify v)`: the identity on JSON-expressible
values, except that every `Date` object collapses to its ISO string. -/
def jsonValue : JVal → JVal
| .str s => .str s
| .num n => .num n
| .bool b => .bool b
| .null => .null
| .date t => .str (isoOfTime t)
| .arr l => .arr (jsonValueList l)
| .obj o => .obj (jsonValueObj o)

def jsonValueList : JList → JList
| .nil => .nil
| .cons v t => .cons (jsonValue v) (jsonValueList t)

def jsonValueObj : JObj → JObj
| .nil => .nil
| .cons k v t => .cons k (jsonValue v) (jsonValueObj t)
end

mutual
/-- `true` when the value contains no `Date` object anywhere. -/
def dateFree : JVal → Bool
| .str _ => true
| .num _ => true
| .bool _ => true
| .null => true
| .date _ => false
| .arr l => dateFreeList l
| .obj o => dateFreeObj o

def dateFreeList : JList → Bool
| .nil => true
| .cons v t => dateFree v && dateFreeList t

def dateFreeObj : JObj → Bool
| .nil => true
| .cons _ v t => dateFree v && dateFreeObj t
end

/-- `Object.entries`: fields of an object, indexed elements of an array,
indexed characters of a string, nothing for other primitives. -/
def jsEntries : JVal → List (String × JVal)
| .obj fs => fs.toList
| .arr l => l.toList.enum.map (fun e => (toString e.1, e.2))
| .str s => s.data.enum.map (fun e => (toString e.1, .str (String.mk [e.2])))
| _ => []

/-- Building a JS object by successive assignments `data[k] = v`
(duplicate keys overwrite in place, as in the providers' export loops). -/
def objOfEntries (es : List (String × JVal)) : JObj :=
  es.foldl (fun o kv => o.setProp kv.1 kv.2) .nil

/-- The spread-plus-extra-field pattern `\x7b...v, k: x\x7d`. -/
def jSetProp (v : JVal) (k : String) (x : JVal) : JVal :=
  .obj ((JObj.ofList (jsEntries v)).setProp k x)

/-- `v.id` coerced by a template literal, as the providers do when they
build storage keys and paths from entity ids. -/
def idOf (v : JVal) : String :=
  match jGet v "id" with
  | some (.str s) => s
  | some (.num n) => toString n
  | _ => "undefined"

/-- Strict equality `===` on id values: compares primitives structurally;
two absent ids (`undefined === undefined`) compare equal.  Reference
equality on objects is not modelled (entity ids are primitives). -/
def jPrimEq : JVal → JVal → Bool
| .str a, .str b => a == b
| .num a, .num b => a == b
| .bool a, .bool b => a == b
| .null, .null => true
| _, _ => false

def sameId (a b : Option JVal) : Bool :=
  match a, b with
  | none, none => true
  | some x, some y => jPrimEq x y
  | _, _ => false

/-- Shape of a valid `Page` per `types.ts`: required `id`/`title`/`content`
strings, `isFolder` boolean, `createdAt`/`updatedAt` `Date` objects, and
optional `parentId` (string), `children` (array), `isActive` (boolean),
`indent` (number). -/
def isValidPage (v : JVal) : Bool :=
  match v with
  | .obj fs =>
    (match fs.find "id" with | some (.str _) => true | _ => false) &&
    (match fs.find "title" with | some (.str _) => true | _ => false) &&
    (match fs.find "content" with | some (.str _) => true | _ => false) &&
    (match fs.find "isFolder" with | some (.bool _) => true | _ => false) &&
    (match fs.find "createdAt" with | some (.date _) => true | _ => false) &&
    (match fs.find "updatedAt" with | some (.date _) => true | _ => false) &&
    (match fs.find "parentId" with | none => true | some (.str _) => true | _ => false) &&
    (match fs.find "children" with | none => true | some (.arr _) => true | _ => false) &&
    (match fs.find "isActive" with | none => true | some (.bool _) => true | _ => false) &&
    (match fs.find "indent" with | none => true | some (.num _) => true | _ => false)
  | _ => false

/-! ### Generic keyed stores

Association lists model the keyed backing stores (localforage keyspace,
directory contents, WebDAV resources).  `alset` replaces in place or
appends, `aldel` removes, `alget` reads. -/

def alget {κ : Type} [DecidableEq κ] : List (κ × JVal) → κ → Option JVal
| [], _ => none
| (k, v) :: t, q => if k = q then some v else alget t q

def alset {κ : Type} [DecidableEq κ] : List (κ × JVal) → κ → JVal → List (κ × JVal)
| [], q, w => [(q, w)]
| (k, v) :: t, q, w => if k = q then (q, w) :: t else (k, v) :: alset t q w

def aldel {κ : Type} [DecidableEq κ] : List (κ × JVal) → κ → List (κ × JVal)
| [], _ => []
| (k, v) :: t, q => if k = q then aldel t q else (k, v) :: aldel t q

/-- `true` when no key occurs twice. -/
def nodupKeys {κ : Type} [DecidableEq κ] : List (κ × JVal) → Bool
| [] => true
| (k, _) :: t => (match alget t k with | none => true | some _ => false) && nodupKeys t

/-- `String.startsWith`, spelled out on character lists. -/
def charsStart : List Char → List Char → Bool
| [], _ => true
| _ :: _, [] => false
| p :: pt, c :: ct => (p == c) && charsStart pt ct

def strStarts (s pat : String) : Bool := charsStart pat.data s.data

def strEnds (s pat : String) : Bool := charsStart pat.data.reverse s.data.reverse

abbrev KV := List (String × JVal)

/-! ### BrowserStorage (`src/unnamed/part_001`)

Backed by a localforage instance: an asynchronous key-value store whose
values survive by structured clone (no JSON round trip).  All instances
share the same named store. -/

/-- `localforage.getItem`: `null` for an absent key. -/
def jsGetItem (st : KV) (k : String) : JVal :=
  match alget st k with
  | some v => v
  | none => .null

def browserSaveWorkspace (st : KV) (w : JVal) : KV × Except String Unit :=
  (alset st ("workspace_" ++ idOf w) w, .ok ())

def browserGetWorkspace (st : KV) (id : String) : Except String JVal :=
  .ok (jsGetItem st ("workspace_" ++ id))

def browserSavePage (st : KV) (p : JVal) : KV × Except String Unit :=
  (alset st ("page_" ++ idOf p) p, .ok ())

def browserGetPage (st : KV) (id : String) : Except String JVal :=
  .ok (jsGetItem st ("page_" ++ id))

/-- `localforage.removeItem` resolves whether or not the key exists. -/
def browserDeletePage (st : KV) (id : String) : KV × Except String Unit :=
  (aldel st ("page_" ++ id), .ok ())

/-- Enumerate all keys, keep those with the `workspace_` namespace, load
each and keep the truthy results. -/
def browserWsList (st : KV) : List JVal :=
  ((st.map Prod.fst).filter (fun k => strStarts k "workspace_")).filterMap
    (fun k =>
      match alget st k with
      | some v => if truthy v then some v else none
      | none => none)

def browserGetAllWorkspaces (st : KV) : Except String (List JVal) :=
  .ok (browserWsList st)

def browserClearAll (_st : KV) : KV × Except String Unit :=
  ([], .ok ())

/-- The parse of the browser provider's stringified dump: the whole
keyspace as one JSON object of key to value. -/
def browserExportBlob (st : KV) : JVal :=
  .obj (jsonValueObj (objOfEntries st))

/-- Dump the whole keyspace as one JSON object of key to value; the
returned blob is the parse of the stringified dump. -/
def browserExportData (st : KV) : Except String JVal :=
  .ok (browserExportBlob st)

/-- Clear the store, then write every key of the parsed payload verbatim. -/
def browserImportData (_st : KV) (blob : JVal) : KV × Except String Unit :=
  ((jsEntries blob).foldl (fun acc kv => alset acc kv.1 kv.2) [], .ok ())

/-! ### LocalStorage (`src/lib/storage-manager.ts`, lines 184-381)

JSON files in a user-granted directory.  The directory handle is acquired
lazily from `showDirectoryPicker` and cached on the provider instance;
`grants` says whether the picker would succeed, `dir` is the granted
directory's contents (file name to parsed JSON content). -/

structure LocalSt where
  handle : Bool
  grants : Bool
  dir : KV

def ensureDir (st : LocalSt) : LocalSt × Except String Unit :=
  if st.handle then (st, .ok ())
  else if st.grants then ({ st with handle := true }, .ok ())
  else (st, .error "showDirectoryPicker failed")

def wsFileName (id : String) : String := "workspace-" ++ id ++ ".json"

def pgFileName (id : String) : String := "page-" ++ id ++ ".json"

def localSaveWorkspace (st : LocalSt) (w : JVal) : LocalSt × Except String Unit :=
  match ensureDir st with
  | (st1, .error e) => (st1, .error e)
  | (st1, .ok _) =>
    ({ st1 with dir := alset st1.dir (wsFileName (idOf w)) (jsonValue w) }, .ok ())

/-- A missing file raises `NotFoundError`, which is collapsed to `null`. -/
def localGetWorkspace (st : LocalSt) (id : String) : LocalSt × Except String JVal :=
  match ensureDir st with
  | (st1, .error e) => (st1, .error e)
  | (st1, .ok _) =>
    match alget st1.dir (wsFileName id) with
    | some v => (st1, .ok v)
    | none => (st1, .ok .null)

def localSavePage (st : LocalSt) (p : JVal) : LocalSt × Except String Unit :=
  match ensureDir st with
  | (st1, .error e) => (st1, .error e)
  | (st1, .ok _) =>
    ({ st1 with dir := alset st1.dir (pgFileName (idOf p)) (jsonValue p) }, .ok ())

def localGetPage (st : LocalSt) (id : String) : LocalSt × Except String JVal :=
  match ensureDir st with
  | (st1, .error e) => (st1, .error e)
  | (st1, .ok _) =>
    match alget st1.dir (pgFileName id) with
    | some v => (st1, .ok v)
    | none => (st1, .ok .null)

/-- `removeEntry` of an absent file raises `NotFoundError`, which is
caught and swallowed; net effect: remove the entry if present. -/
def localDeletePage (st : LocalSt) (id : String) : LocalSt × Except String Unit :=
  match ensureDir st with
  | (st1, .error e) => (st1, .error e)
  | (st1, .ok _) =>
    ({ st1 with dir := aldel st1.dir (pgFileName id) }, .ok ())

def isWsFile (n : String) : Bool := strStarts n "workspace-" && strEnds n ".json"

def isPgFile (n : String) : Bool := strStarts n "page-" && strEnds n ".json"

/-- Delete every `workspace-*.json` and `page-*.json` file in the
directory. -/
def localClearAll (st : LocalSt) : LocalSt × Except String Unit :=
  match ensureDir st with
  | (st1, .error e) => (st1, .error e)
  | (st1, .ok _) =>
    ({ st1 with dir := st1.dir.filter (fun e => !(isWsFile e.1 || isPgFile e.1)) }, .ok ())

def localGetAllWorkspaces (st : LocalSt) : LocalSt × Except String (List JVal) :=
  match ensureDir st with
  | (st1, .error e) => (st1, .error e)
  | (st1, .ok _) =>
    (st1, .ok ((st1.dir.filter (fun e => isWsFile e.1)).map Prod.snd))

/-- The parse of the local provider's stringified
`\x7bworkspaces, pages, exportDate\x7d` envelope. -/
def localExportBlob (clock : Nat) (dir : KV) : JVal :=
  .obj (jsonValueObj (JObj.ofList
    [("workspaces", .arr (JList.ofList ((dir.filter (fun e => isWsFile e.1)).map Prod.snd))),
     ("pages", .arr (JList.ofList ((dir.filter (fun e => isPgFile e.1)).map Prod.snd))),
     ("exportDate", .str (isoOfTime clock))]))

/-- Directory scan for workspace and page files, bundled into the
`\x7bworkspaces, pages, exportDate\x7d` envelope and stringified. -/
def localExportData (clock : Nat) (st : LocalSt) : LocalSt × Except String JVal :=
  match ensureDir st with
  | (st1, .error e) => (st1, .error e)
  | (st1, .ok _) => (st1, .ok (localExportBlob clock st1.dir))

def localSaveAllWs : List JVal → LocalSt → LocalSt × Except String Unit
| [], st => (st, .ok ())
| w :: t, st =>
  match localSaveWorkspace st w with
  | (st1, .error e) => (st1, .error e)
  | (st1, .ok _) => localSaveAllWs t st1

def localSaveAllPg : List JVal → LocalSt → LocalSt × Except String Unit
| [], st => (st, .ok ())
| p :: t, st =>
  match localSavePage st p with
  | (st1, .error e) => (st1, .error e)
  | (st1, .ok _) => localSaveAllPg t st1

/-- Re-save `data.workspaces` and `data.pages` when those fields are
truthy; iterating a truthy non-array raises. -/
def localImportData (st : LocalSt) (blob : JVal) : LocalSt × Except String Unit :=
  let step1 :=
    match jGet blob "workspaces" with
    | some v =>
      if truthy v then
        match v with
        | .arr l => localSaveAllWs l.toList st
        | _ => (st, .error "Failed to import data: workspaces is not iterable")
      else (st, .ok ())
    | none => (st, .ok ())
  match step1 with
  | (st1, .error e) => (st1, .error e)
  | (st1, .ok _) =>
    match jGet blob "pages" with
    | some v =>
      if truthy v then
        match v with
        | .arr l => localSaveAllPg l.toList st1
        | _ => (st1, .error "Failed to import data: pages is not iterable")
      else (st1, .ok ())
    | none => (st1, .ok ())

/-! ### WebDAVStorage (`src/unnamed/part_002`)

HTTP resources on a server: `/workspace-<id>.json` files keyed by
workspace id, `/pages/workspace-<wid>/page-<pid>.json` files keyed by the
pair of ids.  `reach` says whether requests reach the server (an
unreachable server yields `ok: false, status: 0` for every request);
when reachable, a GET of an absent resource is a 404 and a PUT succeeds,
writing the stringified body. -/

structure DavSt where
  wsFiles : KV
  pgFiles : List ((String × String) × JVal)

def davGetWorkspace (reach : Bool) (st : DavSt) (id : String) : Except String JVal :=
  if reach then
    match alget st.wsFiles id with
    | some v => .ok v
    | none => .ok .null
  else .error "Failed to get workspace: Network error"

def trioIds : List String := ["default", "main", "primary"]

/-- The probe loop of `getAllWorkspaces`: `getWorkspace` on each
conventional id, keeping the truthy results. -/
def davProbe (reach : Bool) (st : DavSt) : List String → Except String (List JVal)
| [] => .ok []
| id :: t =>
  match davGetWorkspace reach st id with
  | .error e => .error e
  | .ok v =>
    match davProbe reach st t with
    | .error e => .error e
    | .ok rest => .ok (if truthy v then v :: rest else rest)

/-- PROPFIND the base URL (throwing when it fails), then probe the fixed
conventional ids `default`, `main`, `primary`. -/
def davGetAllWorkspaces (reach : Bool) (st : DavSt) : Except String (List JVal) :=
  if reach then davProbe reach st trioIds
  else .error "Failed to list files: Unknown error"

/-- The workspace list a reachable server yields. -/
def davWsList (st : DavSt) : List JVal :=
  trioIds.filterMap (fun id =>
    match alget st.wsFiles id with
    | some v => if truthy v then some v else none
    | none => none)

/-- The reduced workspace object PUT by `saveWorkspace`:
`\x7bid, name, pages, currentPageId, lastSync\x7d` with absent source fields
dropped by `JSON.stringify`. -/
def davWsData (w : JVal) (clock : Nat) : JVal :=
  .obj (JObj.ofList
    ((["id", "name", "pages", "currentPageId"].filterMap
       (fun k => (jGet w k).map (fun v => (k, v)))) ++
     [("lastSync", .str (isoOfTime clock))]))

def davSaveWorkspace (reach : Bool) (clock : Nat) (st : DavSt) (w : JVal) :
    DavSt × Except String Unit :=
  if reach then
    ({ st with wsFiles := alset st.wsFiles (idOf w) (jsonValue (davWsData w clock)) }, .ok ())
  else (st, .error "Failed to save workspace: Network error")

/-- `w.pages.some(p => p.id === page.id)`. -/
def wsContainsPage (w : JVal) (pid : Option JVal) : Bool :=
  match jGet w "pages" with
  | some (.arr l) => l.toList.any (fun pg => sameId (jGet pg "id") pid)
  | _ => false

/-- Locate the owning workspace by scanning every listed workspace's
embedded page list, then MKCOL the per-workspace collection and PUT the
page with an injected `lastSync` field.  (A PUT against the reachable
server succeeds; an unreachable server already failed the listing.) -/
def davSavePage (reach : Bool) (clock : Nat) (st : DavSt) (p : JVal) :
    DavSt × Except String Unit :=
  match davGetAllWorkspaces reach st with
  | .error e => (st, .error e)
  | .ok wss =>
    match wss.find? (fun w => wsContainsPage w (jGet p "id")) with
    | none => (st, .error ("Workspace not found for page " ++ idOf p))
    | some w =>
      let pd := jsonValue (jSetProp p "lastSync" (.str (isoOfTime clock)))
      ({ st with pgFiles := alset st.pgFiles (idOf w, idOf p) pd }, .ok ())

/-- GET each workspace's page path in turn; the first 200 wins, and a page
absent everywhere is `null`. -/
def davScanPage (st : DavSt) (pid : String) : List JVal → JVal
| [] => .null
| w :: t =>
  match alget st.pgFiles (idOf w, pid) with
  | some v => v
  | none => davScanPage st pid t

def davGetPage (reach : Bool) (st : DavSt) (pid : String) : Except String JVal :=
  match davGetAllWorkspaces reach st with
  | .error e => .error e
  | .ok wss => .ok (davScanPage st pid wss)

/-- DELETE each workspace's page path until one responds 200; if none
does, throw `Page not found`. -/
def davScanDelete (st : DavSt) (pid : String) : List JVal → DavSt × Except String Unit
| [] => (st, .error "Failed to delete page: Page not found")
| w :: t =>
  match alget st.pgFiles (idOf w, pid) with
  | some _ => ({ st with pgFiles := aldel st.pgFiles (idOf w, pid) }, .ok ())
  | none => davScanDelete st pid t

def davDeletePage (reach : Bool) (st : DavSt) (pid : String) : DavSt × Except String Unit :=
  match davGetAllWorkspaces reach st with
  | .error e => (st, .error e)
  | .ok wss => davScanDelete st pid wss

def davClearList : List JVal → DavSt → DavSt
| [], st => st
| w :: t, st =>
  davClearList t
    { wsFiles := aldel st.wsFiles (idOf w),
      pgFiles := st.pgFiles.filter (fun e => e.1.1 != idOf w) }

def davClearAll (reach : Bool) (st : DavSt) : DavSt × Except String Unit :=
  match davGetAllWorkspaces reach st with
  | .error e => (st, .error e)
  | .ok wss => (davClearList wss st, .ok ())

/-- Export loop body over one workspace's embedded `pages` references:
`getPage` each and keep the truthy results. -/
def davExportPages (reach : Bool) (st : DavSt) : List JVal → Except String (List (String × JVal))
| [] => .ok []
| pref :: t =>
  match davGetPage reach st (idOf pref) with
  | .error e => .error e
  | .ok pv =>
    match davExportPages reach st t with
    | .error e => .error e
    | .ok rest => .ok (if truthy pv then ("page_" ++ idOf pref, pv) :: rest else rest)

/-- Export entries in assignment order: each workspace under
`workspace_<id>`, immediately followed by its pages under `page_<id>`.
Iterating a missing `pages` field raises. -/
def davExportEntries (reach : Bool) (st : DavSt) : List JVal → Except String (List (String × JVal))
| [] => .ok []
| w :: t =>
  match jGet w "pages" with
  | some (.arr l) =>
    match davExportPages reach st l.toList with
    | .error e => .error e
    | .ok pes =>
      match davExportEntries reach st t with
      | .error e => .error e
      | .ok rest => .ok (("workspace_" ++ idOf w, w) :: pes ++ rest)
  | _ => .error "Failed to export data: pages is not iterable"

def davExportData (reach : Bool) (st : DavSt) : Except String JVal :=
  match davGetAllWorkspaces reach st with
  | .error e => .error e
  | .ok wss =>
    match davExportEntries reach st wss with
    | .error e => .error e
    | .ok es => .ok (.obj (jsonValueObj (objOfEntries es)))

def davSaveAllWs (reach : Bool) (clock : Nat) : List JVal → DavSt → DavSt × Except String Unit
| [], st => (st, .ok ())
| w :: t, st =>
  match davSaveWorkspace reach clock st w with
  | (st1, .error e) => (st1, .error e)
  | (st1, .ok _) => davSaveAllWs reach clock t st1

def davSaveAllPg (reach : Bool) (clock : Nat) : List JVal → DavSt → DavSt × Except String Unit
| [], st => (st, .ok ())
| p :: t, st =>
  match davSavePage reach clock st p with
  | (st1, .error e) => (st1, .error e)
  | (st1, .ok _) => davSaveAllPg reach clock t st1

/-- Partition the parsed payload's entries by key namespace, clear the
server, then re-save workspaces and pages through the provider. -/
def davImportData (reach : Bool) (clock : Nat) (st : DavSt) (blob : JVal) :
    DavSt × Except String Unit :=
  let es := jsEntries blob
  let wss := (es.filter (fun e => strStarts e.1 "workspace_")).map Prod.snd
  let pgs := (es.filter (fun e => strStarts e.1 "page_")).map Prod.snd
  match davClearAll reach st with
  | (st1, .error e) => (st1, .error e)
  | (st1, .ok _) =>
    match davSaveAllWs reach clock wss st1 with
    | (st2, .error e) => (st2, .error e)
    | (st2, .ok _) => davSaveAllPg reach clock pgs st2

/-! ### StorageManager (`src/lib/storage-manager.ts`, lines 7-180)

The manager owns one active provider chosen by `StorageConfig.type`, plus
a permanently instantiated `BrowserStorage` fallback.  Every
`BrowserStorage` instance opens the same named localforage store, so the
fallback and a browser-typed active provider share one backing keyspace,
held in `World.browser`.  `World` bundles all external backing media; the
directory handle cached by a `LocalStorage` instance is provider-instance
state and lives in `ActiveProv.local`. -/

structure WebCfg where
  url : String
  username : String
  password : String
  enabled : Bool
deriving DecidableEq

/-- `StorageConfig` from `storage-interface.ts`; `type` is a runtime
string so that the `default` branch of `createProvider` is reachable. -/
structure StorageConfig where
  type : String
  localPath : Option String
  webdavConfig : Option WebCfg
deriving DecidableEq

/-- The constructed provider: a `BrowserStorage`, a `LocalStorage` with
its base path and cached-handle flag, or a `WebDAVStorage`. -/
inductive ActiveProv : Type where
| browser : ActiveProv
| local : String → Bool → ActiveProv
| webdav : WebCfg → ActiveProv
deriving DecidableEq

/-- `createProvider`: fail fast on a missing required sub-config (the
code tests JS falsiness, so an empty `localPath` string also fails) or an
unrecognized `type`. -/
def createProvider (cfg : StorageConfig) : Except String ActiveProv :=
  if cfg.type = "webdav" then
    match cfg.webdavConfig with
    | none => .error "WebDAV config is required for WebDAV storage"
    | some c => .ok (.webdav c)
  else if cfg.type = "browser" then .ok .browser
  else if cfg.type = "local" then
    match cfg.localPath with
    | none => .error "Local path is required for local storage"
    | some p =>
      if p = "" then .error "Local path is required for local storage"
      else .ok (.local p false)
  else .error ("Unsupported storage type: " ++ cfg.type)

/-- All external backing media: the shared localforage store, the
File System Access API's availability, whether the user grants the
directory picker, the granted directory's contents, the WebDAV server's
state and reachability, and the wall clock. -/
structure World where
  browser : KV
  localAvail : Bool
  localGrants : Bool
  localDir : KV
  dav : DavSt
  davReachable : Bool
  clock : Nat

structure MState where
  config : StorageConfig
  active : ActiveProv

abbrev MS := MState × World

def mkStorageManager (cfg : StorageConfig) : Except String MState :=
  match createProvider cfg with
  | .error e => .error e
  | .ok p => .ok ⟨cfg, p⟩

/-- `updateConfig` assigns `this.config` before constructing the new
provider, so a failing construction leaves the rejected config stored
while the previous provider stays active. -/
def updateConfig (m : MState) (cfg : StorageConfig) : MState × Except String Unit :=
  match createProvider cfg with
  | .error e => ({ m with config := cfg }, .error e)
  | .ok p => (⟨cfg, p⟩, .ok ())

def getConfig (m : MState) : StorageConfig := m.config

/-- `executeWithFallback`: try the primary operation; on failure run the
fallback when one is given, and surface the fallback's own error if it
also fails. -/
def executeWithFallback {σ α : Type} (op : σ → σ × Except String α)
    (fb : Option (σ → σ × Except String α)) (s : σ) : σ × Except String α :=
  match op s with
  | (s1, .ok a) => (s1, .ok a)
  | (s1, .error e) =>
    match fb with
    | some f =>
      match f s1 with
      | (s2, .ok a) => (s2, .ok a)
      | (s2, .error e2) => (s2, .error e2)
    | none => (s1, .error e)

def localStOf (w : World) (handle : Bool) : LocalSt :=
  ⟨handle, w.localGrants, w.localDir⟩

def putLocalSt (w : World) (st : LocalSt) : World :=
  { w with localDir := st.dir }

/-! Dispatch of each operation to the active provider.  Local operations
update the cached handle on the provider instance and the directory in
the world; browser and WebDAV operations touch only the world. -/

def activeSaveWorkspace (wv : JVal) : MS → MS × Except String Unit
| (m, w) =>
  match m.active with
  | .browser =>
    let r := browserSaveWorkspace w.browser wv
    ((m, { w with browser := r.1 }), r.2)
  | .local path h =>
    let r := localSaveWorkspace (localStOf w h) wv
    (({ m with active := .local path r.1.handle }, putLocalSt w r.1), r.2)
  | .webdav _ =>
    let r := davSaveWorkspace w.davReachable w.clock w.dav wv
    ((m, { w with dav := r.1 }), r.2)

def activeGetWorkspace (id : String) : MS → MS × Except String JVal
| (m, w) =>
  match m.active with
  | .browser => ((m, w), browserGetWorkspace w.browser id)
  | .local path h =>
    let r := localGetWorkspace (localStOf w h) id
    (({ m with active := .local path r.1.handle }, putLocalSt w r.1), r.2)
  | .webdav _ => ((m, w), davGetWorkspace w.davReachable w.dav id)

def activeSavePage (p : JVal) : MS → MS × Except String Unit
| (m, w) =>
  match m.active with
  | .browser =>
    let r := browserSavePage w.browser p
    ((m, { w with browser := r.1 }), r.2)
  | .local path h =>
    let r := localSavePage (localStOf w h) p
    (({ m with active := .local path r.1.handle }, putLocalSt w r.1), r.2)
  | .webdav _ =>
    let r := davSavePage w.davReachable w.clock w.dav p
    ((m, { w with dav := r.1 }), r.2)

def activeGetPage (id : String) : MS → MS × Except String JVal
| (m, w) =>
  match m.active with
  | .browser => ((m, w), browserGetPage w.browser id)
  | .local path h =>
    let r := localGetPage (localStOf w h) id
    (({ m with active := .local path r.1.handle }, putLocalSt w r.1), r.2)
  | .webdav _ => ((m, w), davGetPage w.davReachable w.dav id)

def activeDeletePage (id : String) : MS → MS × Except String Unit
| (m, w) =>
  match m.active with
  | .browser =>
    let r := browserDeletePage w.browser id
    ((m, { w with browser := r.1 }), r.2)
  | .local path h =>
    let r := localDeletePage (localStOf w h) id
    (({ m with active := .local path r.1.handle }, putLocalSt w r.1), r.2)
  | .webdav _ =>
    let r := davDeletePage w.davReachable w.dav id
    ((m, { w with dav := r.1 }), r.2)

def activeGetAllWorkspaces : MS → MS × Except String (List JVal)
| (m, w) =>
  match m.active with
  | .browser => ((m, w), browserGetAllWorkspaces w.browser)
  | .local path h =>
    let r := localGetAllWorkspaces (localStOf w h)
    (({ m with active := .local path r.1.handle }, putLocalSt w r.1), r.2)
  | .webdav _ => ((m, w), davGetAllWorkspaces w.davReachable w.dav)

def activeClearAll : MS → MS × Except String Unit
| (m, w) =>
  match m.active with
  | .browser =>
    let r := browserClearAll w.browser
    ((m, { w with browser := r.1 }), r.2)
  | .local path h =>
    let r := localClearAll (localStOf w h)
    (({ m with active := .local path r.1.handle }, putLocalSt w r.1), r.2)
  | .webdav _ =>
    let r := davClearAll w.davReachable w.dav
    ((m, { w with dav := r.1 }), r.2)

def activeExportData : MS → MS × Except String JVal
| (m, w) =>
  match m.active with
  | .browser => ((m, w), browserExportData w.browser)
  | .local path h =>
    let r := localExportData w.clock (localStOf w h)
    (({ m with active := .local path r.1.handle }, putLocalSt w r.1), r.2)
  | .webdav _ => ((m, w), davExportData w.davReachable w.dav)

def activeImportData (blob : JVal) : MS → MS × Except String Unit
| (m, w) =>
  match m.active with
  | .browser =>
    let r := browserImportData w.browser blob
    ((m, { w with browser := r.1 }), r.2)
  | .local path h =>
    let r := localImportData (localStOf w h) blob
    (({ m with active := .local path r.1.handle }, putLocalSt w r.1), r.2)
  | .webdav _ =>
    let r := davImportData w.davReachable w.clock w.dav blob
    ((m, { w with dav := r.1 }), r.2)

/-! The fallback `BrowserStorage` instance, lifted to manager state. -/

def fbSaveWorkspace (wv : JVal) : MS → MS × Except String Unit
| (m, w) =>
  let r := browserSaveWorkspace w.browser wv
  ((m, { w with browser := r.1 }), r.2)

def fbGetWorkspace (id : String) : MS → MS × Except String JVal
| (m, w) => ((m, w), browserGetWorkspace w.browser id)

def fbSavePage (p : JVal) : MS → MS × Except String Unit
| (m, w) =>
  let r := browserSavePage w.browser p
  ((m, { w with browser := r.1 }), r.2)

def fbGetPage (id : String) : MS → MS × Except String JVal
| (m, w) => ((m, w), browserGetPage w.browser id)

def fbDeletePage (id : String) : MS → MS × Except String Unit
| (m, w) =>
  let r := browserDeletePage w.browser id
  ((m, { w with browser := r.1 }), r.2)

def fbGetAllWorkspaces : MS → MS × Except String (List JVal)
| (m, w) => ((m, w), browserGetAllWorkspaces w.browser)

def fbClearAll : MS → MS × Except String Unit
| (m, w) =>
  let r := browserClearAll w.browser
  ((m, { w with browser := r.1 }), r.2)

def fbExportData : MS → MS × Except String JVal
| (m, w) => ((m, w), browserExportData w.browser)

def fbImportData (blob : JVal) : MS → MS × Except String Unit
| (m, w) =>
  let r := browserImportData w.browser blob
  ((m, { w with browser := r.1 }), r.2)

/-! The nine public manager operations, each wrapped in
`executeWithFallback` with the browser fallback. -/

def mgrSaveWorkspace (wv : JVal) : MS → MS × Except String Unit :=
  executeWithFallback (activeSaveWorkspace wv) (some (fbSaveWorkspace wv))

def mgrGetWorkspace (id : String) : MS → MS × Except String JVal :=
  executeWithFallback (activeGetWorkspace id) (some (fbGetWorkspace id))

def mgrSavePage (p : JVal) : MS → MS × Except String Unit :=
  executeWithFallback (activeSavePage p) (some (fbSavePage p))

def mgrGetPage (id : String) : MS → MS × Except String JVal :=
  executeWithFallback (activeGetPage id) (some (fbGetPage id))

def mgrDeletePage (id : String) : MS → MS × Except String Unit :=
  executeWithFallback (activeDeletePage id) (some (fbDeletePage id))

def mgrGetAllWorkspaces : MS → MS × Except String (List JVal) :=
  executeWithFallback activeGetAllWorkspaces (some fbGetAllWorkspaces)

def mgrClearAll : MS → MS × Except String Unit :=
  executeWithFallback activeClearAll (some fbClearAll)

def mgrExportData : MS → MS × Except String JVal :=
  executeWithFallback activeExportData (some fbExportData)

def mgrImportData (blob : JVal) : MS → MS × Except String Unit :=
  executeWithFallback (activeImportData blob) (some (fbImportData blob))

/-- `isAvailable` of a provider: localforage is ready, the File System
Access API is present, or a zero-depth PROPFIND reaches the server. -/
def provIsAvailable (p : ActiveProv) (w : World) : Bool :=
  match p with
  | .browser => true
  | .local _ _ => w.localAvail
  | .webdav _ => w.davReachable

/-- `newProvider.importData(...)` in `migrateData`: the freshly built
target provider is used directly, without the fallback wrapper. -/
def provImportData (p : ActiveProv) (w : World) (blob : JVal) :
    ActiveProv × World × Except String Unit :=
  match p with
  | .browser =>
    let r := browserImportData w.browser blob
    (.browser, { w with browser := r.1 }, r.2)
  | .local path h =>
    let r := localImportData (localStOf w h) blob
    (.local path r.1.handle, putLocalSt w r.1, r.2)
  | .webdav cfg =>
    let r := davImportData w.davReachable w.clock w.dav blob
    (.webdav cfg, { w with dav := r.1 }, r.2)

/-- The tail of `migrateData` after the export: construct the target
provider, check its availability, import the blob into it, and only then
swap the manager's config and active provider. -/
def finishMigrate (tcfg : StorageConfig) (m1 : MState) (w1 : World) (blob : JVal) :
    MS × Except String Unit :=
  match createProvider tcfg with
  | .error e => ((m1, w1), .error e)
  | .ok np =>
    if provIsAvailable np w1 then
      match provImportData np w1 blob with
      | (np2, w2, .ok _) => ((⟨tcfg, np2⟩, w2), .ok ())
      | (_, w2, .error e) => ((m1, w2), .error e)
    else ((m1, w1), .error "Target storage provider is not available")

/-- `migrateData`: export through the manager (hence with fallback), then
`finishMigrate`. -/
def migrateData (tcfg : StorageConfig) (s : MS) : MS × Except String Unit :=
  match mgrExportData s with
  | (s1, .error e) => (s1, .error e)
  | ((m1, w1), .ok blob) => finishMigrate tcfg m1 w1 blob

/-! ### Basic lemmas about the value model and the keyed stores -/

mutual
theorem dateFree_jsonValue : ∀ v : JVal, dateFree (jsonValue v) = true
| .str _ => rfl
| .num _ => rfl
| .bool _ => rfl
| .null => rfl
| .date _ => rfl
| .arr l => dateFreeList_jsonValueList l
| .obj o => dateFreeObj_jsonValueObj o

theorem dateFreeList_jsonValueList : ∀ l : JList, dateFreeList (jsonValueList l) = true
| .nil => rfl
| .cons v t => by
  show (dateFree (jsonValue v) && dateFreeList (jsonValueList t)) = true
  rw [dateFree_jsonValue v, dateFreeList_jsonValueList t]
  rfl

theorem dateFreeObj_jsonValueObj : ∀ o : JObj, dateFreeObj (jsonValueObj o) = true
| .nil => rfl
| .cons k v t => by
  show (dateFree (jsonValue v) && dateFreeObj (jsonValueObj t)) = true
  rw [dateFree_jsonValue v, dateFreeObj_jsonValueObj t]
  rfl
end

mutual
theorem jsonValue_of_dateFree : ∀ v : JVal, dateFree v = true → jsonValue v = v
| .str _, _ => rfl
| .num _, _ => rfl
| .bool _, _ => rfl
| .null, _ => rfl
| .date _, h => by exact absurd h (by simp [dateFree])
| .arr l, h => by
  show JVal.arr (jsonValueList l) = JVal.arr l
  rw [jsonValueList_of_dateFree l h]
| .obj o, h => by
  show JVal.obj (jsonValueObj o) = JVal.obj o
  rw [jsonValueObj_of_dateFree o h]

theorem jsonValueList_of_dateFree : ∀ l : JList, dateFreeList l = true → jsonValueList l = l
| .nil, _ => rfl
| .cons v t, h => by
  have h2 : dateFree v = true ∧ dateFreeList t = true := by
    simpa [dateFreeList, Bool.and_eq_true] using h
  show JList.cons (jsonValue v) (jsonValueList t) = JList.cons v t
  rw [jsonValue_of_dateFree v h2.1, jsonValueList_of_dateFree t h2.2]

theorem jsonValueObj_of_dateFree : ∀ o : JObj, dateFreeObj o = true → jsonValueObj o = o
| .nil, _ => rfl
| .cons k v t, h => by
  have h2 : dateFree v = true ∧ dateFreeObj t = true := by
    simpa [dateFreeObj, Bool.and_eq_true] using h
  show JObj.cons k (jsonValue v) (jsonValueObj t) = JObj.cons k v t
  rw [jsonValue_of_dateFree v h2.1, jsonValueObj_of_dateFree t h2.2]
end

/-- A value with a `Date` inside is never equal to any JSON round-trip
image (which is date-free). -/
theorem ne_of_dateFree_of_not (q p : JVal) (hq : dateFree q = true)
    (hp : dateFree p = false) : q ≠ p := by
  intro h
  rw [h, hp] at hq
  exact Bool.false_ne_true hq

/-- An object with a `Date`-valued field contains a date. -/
theorem dateFreeObj_eq_false_of_find : ∀ (o : JObj) (k : String) (v : JVal),
    o.find k = some v → dateFree v = false → dateFreeObj o = false
| .nil, k, v, hfind, _ => by simp [JObj.find] at hfind
| .cons k1 v1 t, k, v, hfind, hv => by
  by_cases h : k1 = k
  · subst h
    simp [JObj.find] at hfind
    subst hfind
    simp [dateFreeObj, hv]
  · simp [JObj.find, h] at hfind
    simp [dateFreeObj, dateFreeObj_eq_false_of_find t k v hfind hv]

theorem alget_alset_self {κ : Type} [DecidableEq κ] (l : List (κ × JVal)) (k : κ) (v : JVal) :
    alget (alset l k v) k = some v := by
  induction l with
  | nil => simp [alset, alget]
  | cons hd t ih =>
    obtain ⟨k1, v1⟩ := hd
    by_cases h : k1 = k
    · subst h; simp [alset, alget]
    · simp [alset, alget, h, ih]

theorem alget_alset_ne {κ : Type} [DecidableEq κ] (l : List (κ × JVal)) (k q : κ) (v : JVal)
    (hne : q ≠ k) : alget (alset l k v) q = alget l q := by
  induction l with
  | nil => simp [alset, alget, Ne.symm hne]
  | cons hd t ih =>
    obtain ⟨k1, v1⟩ := hd
    by_cases h : k1 = k
    · subst h; simp [alset, alget, Ne.symm hne]
    · simp [alset, alget, h, ih]

theorem alget_aldel_self {κ : Type} [DecidableEq κ] (l : List (κ × JVal)) (k : κ) :
    alget (aldel l k) k = none := by
  induction l with
  | nil => simp [aldel, alget]
  | cons hd t ih =>
    obtain ⟨k1, v1⟩ := hd
    by_cases h : k1 = k
    · subst h; simp [aldel, alget, ih]
    · simp [aldel, alget, h, ih]

theorem alget_eq_none_iff {κ : Type} [DecidableEq κ] (l : List (κ × JVal)) (q : κ) :
    alget l q = none ↔ ∀ e ∈ l, e.1 ≠ q := by
  induction l with
  | nil => simp [alget]
  | cons hd t ih =>
    obtain ⟨k1, v1⟩ := hd
    by_cases h : k1 = q
    · subst h; simp [alget]
    · simp [alget, h, ih]

theorem alset_of_absent {κ : Type} [DecidableEq κ] (l : List (κ × JVal)) (k : κ) (v : JVal)
    (h : alget l k = none) : alset l k v = l ++ [(k, v)] := by
  induction l with
  | nil => simp [alset]
  | cons hd t ih =>
    obtain ⟨k1, v1⟩ := hd
    by_cases h2 : k1 = k
    · subst h2; simp [alget] at h
    · simp [alget, h2] at h
      simp [alset, h2, ih h]

theorem alget_append_left {κ : Type} [DecidableEq κ] (l1 l2 : List (κ × JVal)) (q : κ)
    (h : alget l1 q = none) : alget (l1 ++ l2) q = alget l2 q := by
  induction l1 with
  | nil => simp
  | cons hd t ih =>
    obtain ⟨k1, v1⟩ := hd
    by_cases h2 : k1 = q
    · subst h2; simp [alget] at h
    · simp [alget, h2] at h ⊢
      exact ih h

/-- Writing a list of entries with pairwise distinct keys, none of which
occurs in the accumulator, appends them. -/
theorem foldl_alset_append {κ : Type} [DecidableEq κ] :
    ∀ (es acc : List (κ × JVal)), nodupKeys es = true →
    (∀ e ∈ es, alget acc e.1 = none) →
    es.foldl (fun a kv => alset a kv.1 kv.2) acc = acc ++ es := by
  intro es
  induction es with
  | nil => intro acc _ _; simp
  | cons hd t ih =>
    intro acc hnd hacc
    obtain ⟨k, v⟩ := hd
    have hndh : alget t k = none ∧ nodupKeys t = true := by
      have := hnd
      simp [nodupKeys] at this
      rcases h2 : alget t k with _ | w
      · simpa [h2] using this
      · simp [h2] at this
    have hk : alget acc k = none := hacc (k, v) (by simp)
    have hstep : alset acc k v = acc ++ [(k, v)] := alset_of_absent acc k v hk
    have hrec : ∀ e ∈ t, alget (acc ++ [(k, v)]) e.1 = none := by
      intro e he
      have h1 : alget acc e.1 = none := hacc e (by simp [he])
      have h3 : e.1 ≠ k := (alget_eq_none_iff t k).mp hndh.1 e he
      rw [alget_append_left acc [(k, v)] e.1 h1]
      simp [alget, Ne.symm h3]
    calc ((k, v) :: t).foldl (fun a kv => alset a kv.1 kv.2) acc
        = t.foldl (fun a kv => alset a kv.1 kv.2) (acc ++ [(k, v)]) := by
          simp [List.foldl_cons, hstep]
      _ = (acc ++ [(k, v)]) ++ t := ih (acc ++ [(k, v)]) hndh.2 hrec
      _ = acc ++ ((k, v) :: t) := by simp

/-- Importing entries with pairwise distinct keys into the cleared store
reproduces them exactly. -/
theorem foldl_alset_nil {κ : Type} [DecidableEq κ] (es : List (κ × JVal))
    (hnd : nodupKeys es = true) :
    es.foldl (fun a kv => alset a kv.1 kv.2) ([] : List (κ × JVal)) = es := by
  simpa using foldl_alset_append es [] hnd (by intro e _; simp [alget])

theorem alget_of_mem_nodup {κ : Type} [DecidableEq κ] (l : List (κ × JVal)) (k : κ) (v : JVal)
    (hnd : nodupKeys l = true) (hmem : (k, v) ∈ l) : alget l k = some v := by
  induction l with
  | nil => simp at hmem
  | cons hd t ih =>
    obtain ⟨k1, v1⟩ := hd
    have hndh : alget t k1 = none ∧ nodupKeys t = true := by
      have := hnd
      simp [nodupKeys] at this
      rcases h2 : alget t k1 with _ | w
      · simpa [h2] using this
      · simp [h2] at this
    rcases List.mem_cons.mp hmem with h | h
    · simp only [Prod.mk.injEq] at h
      obtain ⟨hk, hv⟩ := h
      subst hk; subst hv
      simp [alget]
    · have h3 : k1 ≠ k := by
        intro hkk
        subst hkk
        have := (alget_eq_none_iff t k1).mp hndh.1 (k1, v) h
        simp at this
      simp [alget, h3, ih hndh.2 h]

theorem strStarts_ws_key (s : String) : strStarts ("workspace_" ++ s) "workspace_" = true := by
  cases s with
  | mk l => rfl

theorem strStarts_pg_not_ws (s : String) : strStarts ("page_" ++ s) "workspace_" = false := by
  cases s with
  | mk l => rfl

theorem strStarts_pg_key (s : String) : strStarts ("page_" ++ s) "page_" = true := by
  cases s with
  | mk l => rfl

theorem strStarts_ws_not_pg (s : String) : strStarts ("workspace_" ++ s) "page_" = false := by
  cases s with
  | mk l => rfl

/-- Against a reachable server the probe loop is a filter of the three
conventional ids over the stored workspace files. -/
theorem davProbe_filterMap (st : DavSt) (ids : List String) :
    davProbe true st ids = .ok (ids.filterMap (fun id =>
      match alget st.wsFiles id with
      | some v => if truthy v then some v else none
      | none => none)) := by
  induction ids with
  | nil => rfl
  | cons id t ih =>
    cases h : alget st.wsFiles id with
    | none =>
      simp [davProbe, davGetWorkspace, h, ih, List.filterMap_cons, truthy]
    | some v =>
      by_cases ht : truthy v
      · simp [davProbe, davGetWorkspace, h, ih, List.filterMap_cons, ht]
      · simp [davProbe, davGetWorkspace, h, ih, List.filterMap_cons, ht]

theorem davGAW_reach (st : DavSt) : davGetAllWorkspaces true st = .ok (davWsList st) := by
  simp [davGetAllWorkspaces, davWsList, davProbe_filterMap st trioIds]

theorem mem_davWsList (st : DavSt) (v : JVal) (h : v ∈ davWsList st) :
    ∃ id, id ∈ trioIds ∧ alget st.wsFiles id = some v ∧ truthy v = true := by
  simp only [davWsList, List.mem_filterMap] at h
  obtain ⟨id, hid, hmatch⟩ := h
  cases h2 : alget st.wsFiles id with
  | none => rw [h2] at hmatch; simp at hmatch
  | some w =>
    rw [h2] at hmatch
    by_cases ht : truthy w
    · simp [ht] at hmatch
      subst hmatch
      exact ⟨id, hid, h2, ht⟩
    · simp [ht] at hmatch

/-! ### Sample entities used by witnesses and counterexamples -/

/-- A valid page per `types.ts`: the required fields, with `Date`-typed
timestamps. -/
def samplePage : JVal :=
  .obj (JObj.ofList
    [("id", .str "p1"), ("title", .str "Note"), ("content", .str "hello"),
     ("isFolder", .bool false), ("createdAt", .date 5), ("updatedAt", .date 6)])

/-- A workspace under the conventional id `default` whose embedded page
list contains `samplePage`. -/
def sampleWs : JVal :=
  .obj (JObj.ofList
    [("id", .str "default"), ("name", .str "Main"),
     ("pages", .arr (JList.ofList [samplePage])), ("currentPageId", .str "p1")])

def badLocalCfg : StorageConfig := ⟨"local", none, none⟩

def badDavCfg : StorageConfig := ⟨"webdav", none, none⟩

def badTypeCfg : StorageConfig := ⟨"sqlite", none, none⟩

/-! ### Claims -/

/-- C7: provider construction fails fast on invalid configuration: a
`local` config without `localPath`, a `webdav` config without
`webdavConfig`, and an unrecognized `type` each make `createProvider` —
and hence `StorageManager` construction and `updateConfig` — throw a
configuration error instead of producing a provider. -/
theorem C7_construction_fails_fast (cfg : StorageConfig) :
    ((cfg.type = "local" ∧ cfg.localPath = none) →
      createProvider cfg = .error "Local path is required for local storage" ∧
      mkStorageManager cfg = .error "Local path is required for local storage" ∧
      ∀ m : MState, updateConfig m cfg =
        ({ m with config := cfg }, .error "Local path is required for local storage")) ∧
    ((cfg.type = "webdav" ∧ cfg.webdavConfig = none) →
      createProvider cfg = .error "WebDAV config is required for WebDAV storage" ∧
      mkStorageManager cfg = .error "WebDAV config is required for WebDAV storage" ∧
      ∀ m : MState, updateConfig m cfg =
        ({ m with config := cfg }, .error "WebDAV config is required for WebDAV storage")) ∧
    ((cfg.type ≠ "webdav" ∧ cfg.type ≠ "browser" ∧ cfg.type ≠ "local") →
      createProvider cfg = .error ("Unsupported storage type: " ++ cfg.type) ∧
      mkStorageManager cfg = .error ("Unsupported storage type: " ++ cfg.type) ∧
      ∀ m : MState, updateConfig m cfg =
        ({ m with config := cfg }, .error ("Unsupported storage type: " ++ cfg.type))) := by
  refine ⟨?_, ?_, ?_⟩
  · rintro ⟨h1, h2⟩
    have hcp : createProvider cfg = .error "Local path is required for local storage" := by
      simp [createProvider, h1, h2]
    exact ⟨hcp, by simp [mkStorageManager, hcp], fun m => by simp [updateConfig, hcp]⟩
  · rintro ⟨h1, h2⟩
    have hcp : createProvider cfg = .error "WebDAV config is required for WebDAV storage" := by
      simp [createProvider, h1, h2]
    exact ⟨hcp, by simp [mkStorageManager, hcp], fun m => by simp [updateConfig, hcp]⟩
  · rintro ⟨h1, h2, h3⟩
    have hcp : createProvider cfg = .error ("Unsupported storage type: " ++ cfg.type) := by
      simp [createProvider, h1, h2, h3]
    exact ⟨hcp, by simp [mkStorageManager, hcp], fun m => by simp [updateConfig, hcp]⟩

theorem C7_witness :
    createProvider badLocalCfg = .error "Local path is required for local storage" ∧
    createProvider badDavCfg = .error "WebDAV config is required for WebDAV storage" ∧
    createProvider badTypeCfg = .error "Unsupported storage type: sqlite" :=
  ⟨((C7_construction_fails_fast badLocalCfg).1 ⟨rfl, rfl⟩).1,
   ((C7_construction_fails_fast badDavCfg).2.1 ⟨rfl, rfl⟩).1,
   ((C7_construction_fails_fast badTypeCfg).2.2
     ⟨by decide, by decide, by decide⟩).1⟩

/-- C9: `updateConfig` is not atomic on failure: when `createProvider`
rejects the new config, the manager has already stored it, so
`getConfig` returns the rejected config while the active provider —
which every subsequent operation dispatches to — is still the one built
from the previous, valid config. -/
theorem C9_updateConfig_not_atomic (m : MState) (cfg : StorageConfig) (e : String)
    (h : createProvider cfg = .error e) :
    updateConfig m cfg = ({ m with config := cfg }, .error e) ∧
    getConfig (updateConfig m cfg).1 = cfg ∧
    (updateConfig m cfg).1.active = m.active := by
  refine ⟨?_, ?_, ?_⟩ <;> simp [updateConfig, getConfig, h]

theorem C9_witness :
    updateConfig ⟨⟨"browser", none, none⟩, .browser⟩ badLocalCfg =
      (⟨badLocalCfg, .browser⟩, .error "Local path is required for local storage") :=
  (C9_updateConfig_not_atomic ⟨⟨"browser", none, none⟩, .browser⟩ badLocalCfg
    "Local path is required for local storage" rfl).1

/-! ### Fallback wrapper lemmas -/

theorem ewf_ok {σ α : Type} (op fb : σ → σ × Except String α) (s s1 : σ) (a : α)
    (h : op s = (s1, .ok a)) : executeWithFallback op (some fb) s = (s1, .ok a) := by
  simp [executeWithFallback, h]

theorem ewf_err {σ α : Type} (op fb : σ → σ × Except String α) (s s1 : σ) (e : String)
    (h : op s = (s1, .error e)) : executeWithFallback op (some fb) s = fb s1 := by
  simp only [executeWithFallback, h]
  rcases h2 : fb s1 with ⟨s2, r⟩
  cases r <;> simp

/-- The wrapper's behaviour as one unconditional equation. -/
theorem ewf_eq {σ α : Type} (op fb : σ → σ × Except String α) (s : σ) :
    executeWithFallback op (some fb) s =
      match op s with
      | (s1, .ok a) => (s1, .ok a)
      | (s1, .error _) => fb s1 := by
  rcases h : op s with ⟨s1, r⟩
  cases r with
  | ok a => rw [ewf_ok op fb s s1 a h]
  | error e => rw [ewf_err op fb s s1 e h]

/-- C2: every `StorageManager` operation first attempts the active
provider; exactly when that attempt throws, the same operation runs on
the fallback browser provider and its outcome is returned — so when the
fallback also throws, the error that reaches the caller is the
fallback's, not the active provider's.  All nine public operations are
wired this way. -/
theorem C2_fallback_order :
    (∀ (σ α : Type) (op fb : σ → σ × Except String α) (s s1 : σ) (a : α),
      op s = (s1, .ok a) → executeWithFallback op (some fb) s = (s1, .ok a)) ∧
    (∀ (σ α : Type) (op fb : σ → σ × Except String α) (s s1 : σ) (e : String),
      op s = (s1, .error e) → executeWithFallback op (some fb) s = fb s1) ∧
    (∀ (σ α : Type) (op fb : σ → σ × Except String α) (s s1 s2 : σ) (e e2 : String),
      op s = (s1, .error e) → fb s1 = (s2, .error e2) →
      executeWithFallback op (some fb) s = (s2, .error e2)) ∧
    (∀ (wv : JVal) (s s1 : MS) (r : Except String Unit),
      activeSaveWorkspace wv s = (s1, r) → mgrSaveWorkspace wv s =
        (if r.isOk then (s1, r) else fbSaveWorkspace wv s1)) ∧
    (∀ (id : String) (s s1 : MS) (r : Except String JVal),
      activeGetWorkspace id s = (s1, r) → mgrGetWorkspace id s =
        (if r.isOk then (s1, r) else fbGetWorkspace id s1)) ∧
    (∀ (p : JVal) (s s1 : MS) (r : Except String Unit),
      activeSavePage p s = (s1, r) → mgrSavePage p s =
        (if r.isOk then (s1, r) else fbSavePage p s1)) ∧
    (∀ (id : String) (s s1 : MS) (r : Except String JVal),
      activeGetPage id s = (s1, r) → mgrGetPage id s =
        (if r.isOk then (s1, r) else fbGetPage id s1)) ∧
    (∀ (id : String) (s s1 : MS) (r : Except String Unit),
      activeDeletePage id s = (s1, r) → mgrDeletePage id s =
        (if r.isOk then (s1, r) else fbDeletePage id s1)) ∧
    (∀ (s s1 : MS) (r : Except String (List JVal)),
      activeGetAllWorkspaces s = (s1, r) → mgrGetAllWorkspaces s =
        (if r.isOk then (s1, r) else fbGetAllWorkspaces s1)) ∧
    (∀ (s s1 : MS) (r : Except String Unit),
      activeClearAll s = (s1, r) → mgrClearAll s =
        (if r.isOk then (s1, r) else fbClearAll s1)) ∧
    (∀ (s s1 : MS) (r : Except String JVal),
      activeExportData s = (s1, r) → mgrExportData s =
        (if r.isOk then (s1, r) else fbExportData s1)) ∧
    (∀ (blob : JVal) (s s1 : MS) (r : Except String Unit),
      activeImportData blob s = (s1, r) → mgrImportData blob s =
        (if r.isOk then (s1, r) else fbImportData blob s1)) := by
  have wire : ∀ (α : Type) (op fb : MS → MS × Except String α) (s s1 : MS)
      (r : Except String α), op s = (s1, r) →
      executeWithFallback op (some fb) s = (if r.isOk then (s1, r) else fb s1) := by
    intro α op fb s s1 r h
    cases r with
    | ok a => simpa [Except.isOk, Except.toBool] using ewf_ok op fb s s1 a h
    | error e => simpa [Except.isOk, Except.toBool] using ewf_err op fb s s1 e h
  refine ⟨?_, ?_, ?_, ?_, ?_, ?_, ?_, ?_, ?_, ?_, ?_, ?_⟩
  · intro σ α op fb s s1 a h
    exact ewf_ok op fb s s1 a h
  · intro σ α op fb s s1 e h
    exact ewf_err op fb s s1 e h
  · intro σ α op fb s s1 s2 e e2 h h2
    rw [ewf_err op fb s s1 e h, h2]
  · intro wv s s1 r h
    unfold mgrSaveWorkspace
    exact wire Unit (activeSaveWorkspace wv) (fbSaveWorkspace wv) s s1 r h
  · intro id s s1 r h
    unfold mgrGetWorkspace
    exact wire JVal (activeGetWorkspace id) (fbGetWorkspace id) s s1 r h
  · intro p s s1 r h
    unfold mgrSavePage
    exact wire Unit (activeSavePage p) (fbSavePage p) s s1 r h
  · intro id s s1 r h
    unfold mgrGetPage
    exact wire JVal (activeGetPage id) (fbGetPage id) s s1 r h
  · intro id s s1 r h
    unfold mgrDeletePage
    exact wire Unit (activeDeletePage id) (fbDeletePage id) s s1 r h
  · intro s s1 r h
    unfold mgrGetAllWorkspaces
    exact wire (List JVal) activeGetAllWorkspaces fbGetAllWorkspaces s s1 r h
  · intro s s1 r h
    unfold mgrClearAll
    exact wire Unit activeClearAll fbClearAll s s1 r h
  · intro s s1 r h
    unfold mgrExportData
    exact wire JVal activeExportData fbExportData s s1 r h
  · intro blob s s1 r h
    unfold mgrImportData
    exact wire Unit (activeImportData blob) (fbImportData blob) s s1 r h

def opAlwaysFail : Nat → Nat × Except String Unit := fun n => (n + 1, .error "primary failed")

def fbAlsoFail : Nat → Nat × Except String Unit := fun n => (n + 2, .error "fallback failed")

theorem C2_witness :
    executeWithFallback opAlwaysFail (some fbAlsoFail) 0 = (3, .error "fallback failed") :=
  C2_fallback_order.2.2.1 Nat Unit opAlwaysFail fbAlsoFail 0 1 3
    "primary failed" "fallback failed" rfl rfl

/-! ### Delete idempotency (C3) -/

theorem davScanDelete_absent (st : DavSt) (pid : String) (l : List JVal)
    (h : ∀ w ∈ l, alget st.pgFiles (idOf w, pid) = none) :
    davScanDelete st pid l = (st, .error "Failed to delete page: Page not found") := by
  induction l with
  | nil => rfl
  | cons w t ih =>
    simp [davScanDelete, h w (by simp), ih (fun w2 hw => h w2 (by simp [hw]))]

/-- C3 (amended): `deletePage` is idempotent for the browser and local
providers: deleting an absent page id — in particular deleting the same
id twice — never raises.  The WebDAV provider instead throws `Page not
found` whenever no probed workspace has a stored page file for the id,
so its second delete of an id raises. -/
theorem C3_deletePage_idempotent_except_webdav :
    (∀ (st : KV) (id : String),
      (browserDeletePage st id).2 = .ok () ∧
      (browserDeletePage (browserDeletePage st id).1 id).2 = .ok ()) ∧
    (∀ (st : LocalSt) (id : String), (st.handle || st.grants) = true →
      (localDeletePage st id).2 = .ok () ∧
      (localDeletePage (localDeletePage st id).1 id).2 = .ok ()) ∧
    (∀ (st : DavSt) (pid : String),
      (∀ w ∈ davWsList st, alget st.pgFiles (idOf w, pid) = none) →
      (davDeletePage true st pid).2 = .error "Failed to delete page: Page not found") := by
  refine ⟨?_, ?_, ?_⟩
  · intro st id
    exact ⟨rfl, rfl⟩
  · intro st id hh
    cases h1 : st.handle with
    | true => exact ⟨by simp [localDeletePage, ensureDir, h1], by simp [localDeletePage, ensureDir, h1]⟩
    | false =>
      have hg : st.grants = true := by
        rw [h1] at hh
        simpa using hh
      exact ⟨by simp [localDeletePage, ensureDir, h1, hg],
             by simp [localDeletePage, ensureDir, h1, hg]⟩
  · intro st pid h
    simp [davDeletePage, davGAW_reach, davScanDelete_absent st pid _ h]

/-- The WebDAV server state of the counterexample: the `default`
workspace holds `samplePage`, whose stored page file exists. -/
def davCxSt : DavSt :=
  ⟨[("default", sampleWs)], [(("default", "p1"), jsonValue samplePage)]⟩

/-- C3 counterexample: on the WebDAV provider, the first delete of page
`p1` succeeds but the second delete of the same id throws `Page not
found` — deleting an absent page is an error on this provider. -/
theorem C3_counterexample :
    (davDeletePage true davCxSt "p1").2 = .ok () ∧
    (davDeletePage true (davDeletePage true davCxSt "p1").1 "p1").2 =
      .error "Failed to delete page: Page not found" := by
  exact ⟨rfl, rfl⟩

theorem C3_witness :
    (browserDeletePage [] "p1").2 = .ok () ∧
    (localDeletePage ⟨true, true, []⟩ "p1").2 = .ok () ∧
    (davDeletePage true ⟨[], []⟩ "p1").2 = .error "Failed to delete page: Page not found" :=
  ⟨(C3_deletePage_idempotent_except_webdav.1 [] "p1").1,
   (C3_deletePage_idempotent_except_webdav.2.1 ⟨true, true, []⟩ "p1" rfl).1,
   C3_deletePage_idempotent_except_webdav.2.2 ⟨[], []⟩ "p1"
     (by intro w hw; simp [davWsList, trioIds, alget] at hw)⟩

/-! ### WebDAV listing: the fixed trio (C4) -/

theorem mem_of_alget {κ : Type} [DecidableEq κ] (l : List (κ × JVal)) (q : κ) (v : JVal)
    (h : alget l q = some v) : (q, v) ∈ l := by
  induction l with
  | nil => simp [alget] at h
  | cons hd t ih =>
    obtain ⟨k1, v1⟩ := hd
    by_cases h2 : k1 = q
    · subst h2
      simp [alget] at h
      simp [h]
    · simp [alget, h2] at h
      simp [ih h]

/-- Every workspace file stores its own key as its `id` field. -/
def davIdsWF (st : DavSt) : Bool :=
  st.wsFiles.all (fun e => idOf e.2 == e.1)

/-- C4: against a reachable server, `getAllWorkspaces` probes exactly the
conventional ids `default`, `main`, `primary`: the result is the probe of
those three ids (each included exactly when its `GET` finds a truthy
workspace file), every returned workspace was stored under a trio id,
and — when files store their own key as id — a workspace stored under
any other id never appears in the result. -/
theorem C4_dav_lists_only_trio (st : DavSt) :
    davGetAllWorkspaces true st = .ok (davWsList st) ∧
    (∀ v ∈ davWsList st, ∃ id, id ∈ trioIds ∧ alget st.wsFiles id = some v) ∧
    (davIdsWF st = true → ∀ v ∈ davWsList st, idOf v ∈ trioIds) ∧
    (davIdsWF st = true →
      ∀ k v, (k, v) ∈ st.wsFiles → k ∉ trioIds → v ∉ davWsList st) := by
  have hwf : davIdsWF st = true → ∀ e ∈ st.wsFiles, idOf e.2 = e.1 := by
    intro h
    simpa [davIdsWF, List.all_eq_true] using h
  refine ⟨davGAW_reach st, ?_, ?_, ?_⟩
  · intro v hv
    obtain ⟨id, hid, hget, _⟩ := mem_davWsList st v hv
    exact ⟨id, hid, hget⟩
  · intro h v hv
    obtain ⟨id, hid, hget, _⟩ := mem_davWsList st v hv
    have := hwf h (id, v) (mem_of_alget st.wsFiles id v hget)
    simpa [this] using hid
  · intro h k v hmem hk hv
    obtain ⟨id, hid, hget, _⟩ := mem_davWsList st v hv
    have h1 : idOf v = id := hwf h (id, v) (mem_of_alget st.wsFiles id v hget)
    have h2 : idOf v = k := hwf h (k, v) hmem
    rw [h1] at h2
    subst h2
    exact hk hid

/-- A workspace file stored under the non-conventional id `other`. -/
def otherWs : JVal :=
  .obj (JObj.ofList
    [("id", .str "other"), ("name", .str "Elsewhere"),
     ("pages", .arr .nil)])

def davC4St : DavSt := ⟨[("default", sampleWs), ("other", otherWs)], []⟩

theorem C4_witness :
    davGetAllWorkspaces true davC4St = .ok [sampleWs] ∧
    otherWs ∉ davWsList davC4St :=
  ⟨by rw [(C4_dav_lists_only_trio davC4St).1]; rfl,
   (C4_dav_lists_only_trio davC4St).2.2.2 (by rfl) "other" otherWs
     (by simp [davC4St]) (by decide)⟩

/-! ### Absent resources read as null (C8) -/

theorem davScanPage_absent (st : DavSt) (pid : String) (l : List JVal)
    (h : ∀ w ∈ l, alget st.pgFiles (idOf w, pid) = none) :
    davScanPage st pid l = .null := by
  induction l with
  | nil => rfl
  | cons w t ih =>
    simp [davScanPage, h w (by simp), ih (fun w2 hw => h w2 (by simp [hw]))]

/-- C8: on each provider, `getWorkspace` and `getPage` for an id whose
resource is absent from the backing store (localforage key missing, file
lookup reporting `NotFoundError`, WebDAV server answering 404) return
`null` and do not throw. -/
theorem C8_absent_reads_null :
    (∀ (st : KV) (id : String), alget st ("workspace_" ++ id) = none →
      browserGetWorkspace st id = .ok .null) ∧
    (∀ (st : KV) (id : String), alget st ("page_" ++ id) = none →
      browserGetPage st id = .ok .null) ∧
    (∀ (st : LocalSt) (id : String), (st.handle || st.grants) = true →
      alget st.dir (wsFileName id) = none →
      ∃ st1, localGetWorkspace st id = (st1, .ok .null)) ∧
    (∀ (st : LocalSt) (id : String), (st.handle || st.grants) = true →
      alget st.dir (pgFileName id) = none →
      ∃ st1, localGetPage st id = (st1, .ok .null)) ∧
    (∀ (st : DavSt) (id : String), alget st.wsFiles id = none →
      davGetWorkspace true st id = .ok .null) ∧
    (∀ (st : DavSt) (id : String),
      (∀ w ∈ davWsList st, alget st.pgFiles (idOf w, id) = none) →
      davGetPage true st id = .ok .null) := by
  refine ⟨?_, ?_, ?_, ?_, ?_, ?_⟩
  · intro st id h
    simp [browserGetWorkspace, jsGetItem, h]
  · intro st id h
    simp [browserGetPage, jsGetItem, h]
  · intro st id hh habs
    cases h1 : st.handle with
    | true => exact ⟨st, by simp [localGetWorkspace, ensureDir, h1, habs]⟩
    | false =>
      have hg : st.grants = true := by
        rw [h1] at hh
        simpa using hh
      exact ⟨{ st with handle := true },
        by simp [localGetWorkspace, ensureDir, h1, hg, habs]⟩
  · intro st id hh habs
    cases h1 : st.handle with
    | true => exact ⟨st, by simp [localGetPage, ensureDir, h1, habs]⟩
    | false =>
      have hg : st.grants = true := by
        rw [h1] at hh
        simpa using hh
      exact ⟨{ st with handle := true },
        by simp [localGetPage, ensureDir, h1, hg, habs]⟩
  · intro st id h
    simp [davGetWorkspace, h]
  · intro st id h
    simp [davGetPage, davGAW_reach, davScanPage_absent st id _ h]

theorem C8_witness :
    browserGetWorkspace [] "nope" = .ok .null ∧
    (∃ st1, localGetPage ⟨true, true, []⟩ "nope" = (st1, .ok .null)) ∧
    davGetWorkspace true ⟨[], []⟩ "nope" = .ok .null ∧
    davGetPage true ⟨[], []⟩ "nope" = .ok .null :=
  ⟨C8_absent_reads_null.1 [] "nope" rfl,
   C8_absent_reads_null.2.2.2.1 ⟨true, true, []⟩ "nope" rfl rfl,
   C8_absent_reads_null.2.2.2.2.1 ⟨[], []⟩ "nope" rfl,
   C8_absent_reads_null.2.2.2.2.2 ⟨[], []⟩ "nope"
     (by intro w hw; simp [davWsList, trioIds, alget] at hw)⟩

/-! ### Round trips (C1) -/

/-- A valid page carries `Date` objects in `createdAt`, so it is not
date-free. -/
theorem validPage_not_dateFree : ∀ p : JVal, isValidPage p = true → dateFree p = false
| .str _, h => by simp [isValidPage] at h
| .num _, h => by simp [isValidPage] at h
| .bool _, h => by simp [isValidPage] at h
| .null, h => by simp [isValidPage] at h
| .date _, h => by simp [isValidPage] at h
| .arr _, h => by simp [isValidPage] at h
| .obj fs, h => by
  simp only [isValidPage, Bool.and_eq_true] at h
  have h2 := h.1.1.1.1.1.2
  rcases h3 : fs.find "createdAt" with _ | v
  · rw [h3] at h2; simp at h2
  · rw [h3] at h2
    cases v with
    | date t => exact dateFreeObj_eq_false_of_find fs "createdAt" (.date t) h3 rfl
    | str s => simp at h2
    | num n => simp at h2
    | bool b => simp at h2
    | null => simp at h2
    | arr l => simp at h2
    | obj o => simp at h2

/-- After the save wrote the page file under the found workspace's key,
the scan of the workspace list returns it, provided no other listed
workspace had a stale file for the page id. -/
theorem davScanPage_found (stOld : DavSt) (pd : JVal) (wkey pid : String)
    (l : List JVal) (hmem : ∃ w ∈ l, idOf w = wkey)
    (hfresh : ∀ w2 ∈ l, alget stOld.pgFiles (idOf w2, pid) = none) :
    davScanPage { stOld with pgFiles := alset stOld.pgFiles (wkey, pid) pd } pid l = pd := by
  induction l with
  | nil =>
    obtain ⟨w, hw, _⟩ := hmem
    simp at hw
  | cons w2 t ih =>
    by_cases h : idOf w2 = wkey
    · simp [davScanPage, h, alget_alset_self]
    · have hne : ((idOf w2, pid) : String × String) ≠ (wkey, pid) := by simp [h]
      have hget : alget (alset stOld.pgFiles (wkey, pid) pd) (idOf w2, pid) = none := by
        rw [alget_alset_ne stOld.pgFiles (wkey, pid) (idOf w2, pid) pd hne]
        exact hfresh w2 (by simp)
      rw [davScanPage, hget]
      apply ih
      · obtain ⟨w, hw, hwk⟩ := hmem
        rcases List.mem_cons.mp hw with h2 | h2
        · subst h2; exact absurd hwk h
        · exact ⟨w, h2, hwk⟩
      · intro w3 hw3
        exact hfresh w3 (by simp [hw3])

/-- C1 (amended): the save-then-get round trip is exact only for the
browser provider (structured clone).  The local provider returns the
JSON round-trip image of the page — its `Date` timestamps come back as
strings — and the WebDAV provider additionally injects a `lastSync`
field, so on those two providers the value read back is never deep-equal
to a valid page. -/
theorem C1_roundtrip_amended :
    (∀ (st : KV) (p : JVal),
      browserGetPage (browserSavePage st p).1 (idOf p) = .ok p) ∧
    (∀ (st : LocalSt) (p : JVal), (st.handle || st.grants) = true →
      (localSavePage st p).2 = .ok () ∧
      (localGetPage (localSavePage st p).1 (idOf p)).2 = .ok (jsonValue p)) ∧
    (∀ (st : DavSt) (clock : Nat) (p w : JVal),
      (davWsList st).find? (fun w2 => wsContainsPage w2 (jGet p "id")) = some w →
      (∀ w2 ∈ davWsList st, alget st.pgFiles (idOf w2, idOf p) = none) →
      (davSavePage true clock st p).2 = .ok () ∧
      davGetPage true (davSavePage true clock st p).1 (idOf p) =
        .ok (jsonValue (jSetProp p "lastSync" (.str (isoOfTime clock))))) ∧
    (∀ (st : LocalSt) (p : JVal), (st.handle || st.grants) = true →
      isValidPage p = true →
      (localGetPage (localSavePage st p).1 (idOf p)).2 ≠ .ok p) ∧
    (∀ (st : DavSt) (clock : Nat) (p w : JVal),
      (davWsList st).find? (fun w2 => wsContainsPage w2 (jGet p "id")) = some w →
      (∀ w2 ∈ davWsList st, alget st.pgFiles (idOf w2, idOf p) = none) →
      isValidPage p = true →
      davGetPage true (davSavePage true clock st p).1 (idOf p) ≠ .ok p) := by
  have hbrowser : ∀ (st : KV) (p : JVal),
      browserGetPage (browserSavePage st p).1 (idOf p) = .ok p := by
    intro st p
    simp [browserGetPage, browserSavePage, jsGetItem, alget_alset_self]
  have hlocal : ∀ (st : LocalSt) (p : JVal), (st.handle || st.grants) = true →
      (localSavePage st p).2 = .ok () ∧
      (localGetPage (localSavePage st p).1 (idOf p)).2 = .ok (jsonValue p) := by
    intro st p hh
    cases h1 : st.handle with
    | true =>
      constructor
      · simp [localSavePage, ensureDir, h1]
      · simp [localSavePage, localGetPage, ensureDir, h1, alget_alset_self]
    | false =>
      have hg : st.grants = true := by
        rw [h1] at hh
        simpa using hh
      constructor
      · simp [localSavePage, ensureDir, h1, hg]
      · simp [localSavePage, localGetPage, ensureDir, h1, hg, alget_alset_self]
  have hdav : ∀ (st : DavSt) (clock : Nat) (p w : JVal),
      (davWsList st).find? (fun w2 => wsContainsPage w2 (jGet p "id")) = some w →
      (∀ w2 ∈ davWsList st, alget st.pgFiles (idOf w2, idOf p) = none) →
      (davSavePage true clock st p).2 = .ok () ∧
      davGetPage true (davSavePage true clock st p).1 (idOf p) =
        .ok (jsonValue (jSetProp p "lastSync" (.str (isoOfTime clock)))) := by
    intro st clock p w hfind hfresh
    have hsave : davSavePage true clock st p =
        ({ st with pgFiles := alset st.pgFiles (idOf w, idOf p) (jsonValue (jSetProp p "lastSync" (.str (isoOfTime clock)))) }, .ok ()) := by
      simp [davSavePage, davGAW_reach, hfind]
    refine ⟨by rw [hsave], ?_⟩
    rw [hsave]
    have hscan := davScanPage_found st
      (jsonValue (jSetProp p "lastSync" (.str (isoOfTime clock)))) (idOf w) (idOf p)
      (davWsList st) ⟨w, List.mem_of_find?_eq_some hfind, rfl⟩ hfresh
    simp only [davGetPage, davGAW_reach]
    exact congrArg Except.ok hscan
  refine ⟨hbrowser, hlocal, hdav, ?_, ?_⟩
  · intro st p hh hvalid heq
    have h1 := (hlocal st p hh).2
    rw [heq] at h1
    have h2 : p = jsonValue p := Except.ok.inj h1
    have h3 := dateFree_jsonValue p
    rw [← h2] at h3
    rw [validPage_not_dateFree p hvalid] at h3
    exact Bool.false_ne_true h3
  · intro st clock p w hfind hfresh hvalid heq
    have h1 := (hdav st clock p w hfind hfresh).2
    rw [heq] at h1
    have h2 : p = jsonValue (jSetProp p "lastSync" (.str (isoOfTime clock))) :=
      Except.ok.inj h1
    have h3 := dateFree_jsonValue (jSetProp p "lastSync" (.str (isoOfTime clock)))
    rw [← h2] at h3
    rw [validPage_not_dateFree p hvalid] at h3
    exact Bool.false_ne_true h3

/-- C1 counterexample: `samplePage` is a valid page, yet on the
local-directory provider saving it and reading it back yields its JSON
round-trip image (timestamps as strings), not a value deep-equal to the
page itself. -/
theorem C1_counterexample :
    isValidPage samplePage = true ∧
    (localGetPage (localSavePage ⟨true, true, []⟩ samplePage).1 "p1").2 =
      .ok (jsonValue samplePage) ∧
    (localGetPage (localSavePage ⟨true, true, []⟩ samplePage).1 "p1").2 ≠
      .ok samplePage := by
  refine ⟨rfl, rfl, ?_⟩
  intro h
  have h0 : (localGetPage (localSavePage ⟨true, true, []⟩ samplePage).1 "p1").2 =
      .ok (jsonValue samplePage) := rfl
  rw [h0] at h
  have h2 : jsonValue samplePage = samplePage := Except.ok.inj h
  have h3 := dateFree_jsonValue samplePage
  rw [h2] at h3
  have h4 : dateFree samplePage = false := rfl
  rw [h4] at h3
  exact Bool.false_ne_true h3

def davC1St : DavSt := ⟨[("default", sampleWs)], []⟩

theorem C1_witness :
    browserGetPage (browserSavePage [] samplePage).1 (idOf samplePage) = .ok samplePage ∧
    (localGetPage (localSavePage ⟨false, true, []⟩ samplePage).1 (idOf samplePage)).2 =
      .ok (jsonValue samplePage) ∧
    davGetPage true (davSavePage true 7 davC1St samplePage).1 (idOf samplePage) =
      .ok (jsonValue (jSetProp samplePage "lastSync" (.str (isoOfTime 7)))) ∧
    (localGetPage (localSavePage ⟨false, true, []⟩ samplePage).1 (idOf samplePage)).2 ≠
      .ok samplePage :=
  ⟨C1_roundtrip_amended.1 [] samplePage,
   (C1_roundtrip_amended.2.1 ⟨false, true, []⟩ samplePage rfl).2,
   (C1_roundtrip_amended.2.2.1 davC1St 7 samplePage sampleWs rfl
     (fun _ _ => rfl)).2,
   C1_roundtrip_amended.2.2.2.1 ⟨false, true, []⟩ samplePage rfl rfl⟩

/-! ### Migration (C6, C10) -/

/-- Two provider values denote the same provider instance parameters,
ignoring the lazily cached directory handle. -/
def provSameKind : ActiveProv → ActiveProv → Bool
| .browser, .browser => true
| .local p _, .local q _ => p == q
| .webdav a, .webdav b => a == b
| _, _ => false

/-- In this model the manager's export always succeeds (the browser
fallback is total), never changes any backing store, and leaves the
manager's config and provider parameters intact (only the local
provider's cached handle may be set). -/
theorem mgrExportData_frame (m : MState) (w : World) :
    ∃ (m1 : MState) (blob : JVal),
      mgrExportData (m, w) = ((m1, w), .ok blob) ∧
      m1.config = m.config ∧ provSameKind m1.active m.active = true := by
  unfold mgrExportData
  rw [ewf_eq activeExportData fbExportData (m, w)]
  rcases m with ⟨cfg, act⟩
  rcases w with ⟨wb, la, lg, ld, dv, dr, ck⟩
  cases act with
  | browser =>
    exact ⟨⟨cfg, .browser⟩, browserExportBlob wb, rfl, rfl, rfl⟩
  | webdav c =>
    cases hr : davExportData dr dv with
    | ok blob =>
      refine ⟨⟨cfg, .webdav c⟩, blob, ?_, rfl, ?_⟩
      · simp [activeExportData, hr]
      · simp [provSameKind]
    | error e =>
      refine ⟨⟨cfg, .webdav c⟩, browserExportBlob wb, ?_, rfl, ?_⟩
      · simp [activeExportData, hr, fbExportData, browserExportData]
      · simp [provSameKind]
  | «local» path h =>
    cases h with
    | true =>
      refine ⟨⟨cfg, .local path true⟩, localExportBlob ck ld, rfl, rfl, ?_⟩
      simp [provSameKind]
    | false =>
      cases lg with
      | true =>
        refine ⟨⟨cfg, .local path true⟩, localExportBlob ck ld, rfl, rfl, ?_⟩
        simp [provSameKind]
      | false =>
        refine ⟨⟨cfg, .local path false⟩, browserExportBlob wb, rfl, rfl, ?_⟩
        simp [provSameKind]

/-- C6: when the constructed target provider reports itself unavailable,
`migrateData` throws the `target unavailable` error, performs no import
into the target (no backing store changes at all: the world is
untouched), and keeps the manager's stored config and active provider;
and in general the config/provider are swapped to the target only after
the import into the target completed — an import failure also leaves
them unswapped. -/
theorem C6_swap_only_after_import :
    (∀ (m : MState) (w : World) (tcfg : StorageConfig) (np : ActiveProv),
      createProvider tcfg = .ok np → provIsAvailable np w = false →
      ∃ m1 : MState, migrateData tcfg (m, w) =
          ((m1, w), .error "Target storage provider is not available") ∧
        m1.config = m.config ∧ provSameKind m1.active m.active = true) ∧
    (∀ (m m1 : MState) (w w2 : World) (tcfg : StorageConfig) (np np2 : ActiveProv)
       (blob : JVal) (e : String),
      mgrExportData (m, w) = ((m1, w), .ok blob) →
      createProvider tcfg = .ok np → provIsAvailable np w = true →
      provImportData np w blob = (np2, w2, .error e) →
      migrateData tcfg (m, w) = ((m1, w2), .error e)) := by
  constructor
  · intro m w tcfg np hcp hna
    obtain ⟨m1, blob, hexp, hcfg, hsame⟩ := mgrExportData_frame m w
    refine ⟨m1, ?_, hcfg, hsame⟩
    simp [migrateData, hexp, finishMigrate, hcp, hna]
  · intro m m1 w w2 tcfg np np2 blob e hexp hcp hav himp
    simp [migrateData, hexp, finishMigrate, hcp, hav, himp]

def w6 : World := ⟨[], false, true, [], ⟨[], []⟩, true, 0⟩

theorem C6_witness :
    ∃ m1 : MState,
      migrateData ⟨"local", some "/notes", none⟩ (⟨⟨"browser", none, none⟩, .browser⟩, w6) =
        ((m1, w6), .error "Target storage provider is not available") ∧
      m1.config = ⟨"browser", none, none⟩ ∧ provSameKind m1.active .browser = true :=
  C6_swap_only_after_import.1 ⟨⟨"browser", none, none⟩, .browser⟩ w6
    ⟨"local", some "/notes", none⟩ (.local "/notes" false) rfl rfl

/-- C10: the export step of `migrateData` goes through the fallback
wrapper: when the active provider's export throws, migration does not
fail there but proceeds with the fallback browser provider's export
blob, handing that blob to the target import. -/
theorem C10_migrate_uses_fallback_export (m m1 : MState) (w w1 : World)
    (tcfg : StorageConfig) (e : String)
    (hact : activeExportData (m, w) = ((m1, w1), .error e)) :
    mgrExportData (m, w) = ((m1, w1), .ok (browserExportBlob w1.browser)) ∧
    migrateData tcfg (m, w) =
      finishMigrate tcfg m1 w1 (browserExportBlob w1.browser) := by
  have h1 : mgrExportData (m, w) =
      ((m1, w1), .ok (browserExportBlob w1.browser)) := by
    unfold mgrExportData
    rw [ewf_err activeExportData fbExportData (m, w) (m1, w1) e hact]
    rfl
  exact ⟨h1, by simp [migrateData, h1]⟩

def cfgW : WebCfg := ⟨"https://x/dav", "u", "p", true⟩

/-- A world whose WebDAV server is unreachable while the shared browser
store still holds a workspace. -/
def w10 : World := ⟨[("workspace_default", sampleWs)], true, true, [], ⟨[], []⟩, false, 0⟩

theorem C10_witness :
    mgrExportData (⟨⟨"webdav", none, some cfgW⟩, .webdav cfgW⟩, w10) =
      ((⟨⟨"webdav", none, some cfgW⟩, .webdav cfgW⟩, w10),
       .ok (browserExportBlob w10.browser)) :=
  (C10_migrate_uses_fallback_export ⟨⟨"webdav", none, some cfgW⟩, .webdav cfgW⟩
    ⟨⟨"webdav", none, some cfgW⟩, .webdav cfgW⟩ w10 w10 ⟨"browser", none, none⟩
    "Failed to list files: Unknown error" rfl).1

/-! ### Cross-provider migration (C5) -/

theorem filter_eq_nil_of_none {α : Type} (l : List α) (p : α → Bool)
    (h : ∀ a ∈ l, p a = false) : l.filter p = [] := by
  induction l with
  | nil => rfl
  | cons a t ih =>
    simp [List.filter_cons, h a (by simp), ih (fun b hb => h b (by simp [hb]))]

theorem filter_fst_map (p : String → Bool) : ∀ es : List (String × JVal),
    (es.map Prod.fst).filter p = (es.filter (fun e => p e.1)).map Prod.fst := by
  intro es
  induction es with
  | nil => rfl
  | cons e t ih =>
    by_cases h : p e.1
    · simp [List.filter_cons, h, ih]
    · simp [List.filter_cons, h, ih]

theorem filterMap_map_self {α β : Type} (L : List α) (f : α → β) (g : β → Option α)
    (h : ∀ v ∈ L, g (f v) = some v) : (L.map f).filterMap g = L := by
  induction L with
  | nil => rfl
  | cons a t ih =>
    simp [List.filterMap_cons, h a (by simp), ih (fun v hv => h v (by simp [hv]))]

theorem map_congr_mem {α β : Type} (L : List α) (f g : α → β)
    (h : ∀ v ∈ L, f v = g v) : L.map f = L.map g := by
  induction L with
  | nil => rfl
  | cons a t ih =>
    simp [h a (by simp), ih (fun v hv => h v (by simp [hv]))]

theorem toList_jsonValueObj : ∀ o : JObj,
    (jsonValueObj o).toList = o.toList.map (fun kv => (kv.1, jsonValue kv.2))
| .nil => rfl
| .cons k v t => by
  simp [jsonValueObj, JObj.toList, toList_jsonValueObj t]

theorem toList_setProp : ∀ (o : JObj) (q : String) (x : JVal),
    (o.setProp q x).toList = alset o.toList q x
| .nil, q, x => rfl
| .cons k v t, q, x => by
  by_cases h : k = q
  · simp [JObj.setProp, JObj.toList, alset, h]
  · simp [JObj.setProp, JObj.toList, alset, h, toList_setProp t q x]

theorem find_eq_alget_toList : ∀ (o : JObj) (k : String),
    o.find k = alget o.toList k
| .nil, k => rfl
| .cons k1 v t, k => by
  by_cases h : k1 = k
  · simp [JObj.find, JObj.toList, alget, h]
  · simp [JObj.find, JObj.toList, alget, h, find_eq_alget_toList t k]

theorem toList_objOfEntries (es : List (String × JVal)) :
    (objOfEntries es).toList = es.foldl (fun a kv => alset a kv.1 kv.2) [] := by
  suffices h : ∀ o : JObj, ((es.foldl (fun o kv => o.setProp kv.1 kv.2) o) : JObj).toList =
      es.foldl (fun a kv => alset a kv.1 kv.2) o.toList by
    simpa [objOfEntries] using h .nil
  induction es with
  | nil => intro o; rfl
  | cons kv t ih =>
    intro o
    simp only [List.foldl_cons]
    rw [ih (o.setProp kv.1 kv.2), toList_setProp]

/-- With pairwise distinct keys, building the export object and reading
its entries back reproduces the entry list. -/
theorem toList_objOfEntries_nodup (es : List (String × JVal))
    (hnd : nodupKeys es = true) : (objOfEntries es).toList = es := by
  rw [toList_objOfEntries, foldl_alset_nil es hnd]

theorem alget_map_snd (f : JVal → JVal) : ∀ (es : List (String × JVal)) (k : String),
    alget (es.map (fun kv => (kv.1, f kv.2))) k = (alget es k).map f := by
  intro es
  induction es with
  | nil => intro k; rfl
  | cons e t ih =>
    intro k
    by_cases h : e.1 = k
    · simp [alget, h]
    · simp [alget, h, ih]

theorem nodupKeys_map_snd (f : JVal → JVal) : ∀ es : List (String × JVal),
    nodupKeys (es.map (fun kv => (kv.1, f kv.2))) = nodupKeys es := by
  intro es
  induction es with
  | nil => rfl
  | cons e t ih =>
    simp only [List.map_cons, nodupKeys, alget_map_snd, ih]
    cases alget t e.1 <;> rfl

theorem filter_key_map (f : JVal → JVal) (p : String → Bool) :
    ∀ es : List (String × JVal),
    (es.map (fun kv => (kv.1, f kv.2))).filter (fun e => p e.1) =
      (es.filter (fun e => p e.1)).map (fun kv => (kv.1, f kv.2)) := by
  intro es
  induction es with
  | nil => rfl
  | cons e t ih =>
    by_cases h : p e.1
    · simp [List.filter_cons, h, ih]
    · simp [List.filter_cons, h, ih]

theorem davGetPage_reach (st : DavSt) (pid : String) :
    davGetPage true st pid = .ok (davScanPage st pid (davWsList st)) := by
  simp [davGetPage, davGAW_reach]

/-- Every entry the page-export loop emits is keyed in the `page_`
namespace. -/
theorem davExportPages_keys (st : DavSt) : ∀ (l : List JVal) (pes : List (String × JVal)),
    davExportPages true st l = .ok pes →
    ∀ e ∈ pes, ∃ s, e.1 = "page_" ++ s := by
  intro l
  induction l with
  | nil =>
    intro pes h e he
    simp [davExportPages] at h
    subst h
    simp at he
  | cons pref t ih =>
    intro pes h e he
    rw [davExportPages, davGetPage_reach] at h
    cases hrest : davExportPages true st t with
    | error e2 => rw [hrest] at h; simp at h
    | ok rest =>
      rw [hrest] at h
      simp only [] at h
      by_cases htr : truthy (davScanPage st (idOf pref) (davWsList st))
      · rw [if_pos htr] at h
        have h2 := Except.ok.inj h
        subst h2
        rcases List.mem_cons.mp he with h3 | h3
        · exact ⟨idOf pref, by rw [h3]⟩
        · exact ih rest hrest e h3
      · rw [if_neg htr] at h
        have h2 := Except.ok.inj h
        subst h2
        exact ih rest hrest e he

/-- The workspace-keyed entries of a successful export are exactly the
listed workspaces, in order. -/
theorem davExportEntries_ws_filter (st : DavSt) : ∀ (l : List JVal) (es : List (String × JVal)),
    davExportEntries true st l = .ok es →
    es.filter (fun e => strStarts e.1 "workspace_") =
      l.map (fun v => ("workspace_" ++ idOf v, v)) := by
  intro l
  induction l with
  | nil =>
    intro es h
    simp [davExportEntries] at h
    subst h
    rfl
  | cons w t ih =>
    intro es h
    cases hpg : jGet w "pages" with
    | none => simp [davExportEntries, hpg] at h
    | some pv =>
      cases pv with
      | arr pl =>
        simp only [davExportEntries, hpg] at h
        cases hpes : davExportPages true st pl.toList with
        | error e2 =>
          simp only [hpes] at h
          simp at h
        | ok pes =>
          simp only [hpes] at h
          cases hrest : davExportEntries true st t with
          | error e2 =>
            simp only [hrest] at h
            simp at h
          | ok rest =>
            simp only [hrest] at h
            have h2 := Except.ok.inj h
            subst h2
            have hpesf : pes.filter (fun e => strStarts e.1 "workspace_") = [] := by
              apply filter_eq_nil_of_none
              intro e he
              obtain ⟨s, hs⟩ := davExportPages_keys st pl.toList pes hpes e he
              rw [hs]
              exact strStarts_pg_not_ws s
            simp [List.filter_cons, List.filter_append, strStarts_ws_key, hpesf,
              ih rest hrest]
      | str s => simp [davExportEntries, hpg] at h
      | num n => simp [davExportEntries, hpg] at h
      | bool b => simp [davExportEntries, hpg] at h
      | null => simp [davExportEntries, hpg] at h
      | date t2 => simp [davExportEntries, hpg] at h
      | obj o => simp [davExportEntries, hpg] at h

theorem alget_foldl_alset_none {κ : Type} [DecidableEq κ] :
    ∀ (es acc : List (κ × JVal)) (k : κ), alget acc k = none → alget es k = none →
    alget (es.foldl (fun a kv => alset a kv.1 kv.2) acc) k = none := by
  intro es
  induction es with
  | nil => intro acc k h _; simpa using h
  | cons e t ih =>
    intro acc k hacc hes
    have h2 : e.1 ≠ k ∧ alget t k = none := by
      rcases e with ⟨k1, v1⟩
      by_cases h3 : k1 = k
      · subst h3; simp [alget] at hes
      · simp [alget, h3] at hes
        exact ⟨h3, hes⟩
    simp only [List.foldl_cons]
    exact ih (alset acc e.1 e.2) k
      (by rw [alget_alset_ne acc e.1 k e.2 (Ne.symm h2.1)]; exact hacc) h2.2

/-- A key absent from the browser store is absent from its export blob. -/
theorem jGet_browserExportBlob (st : KV) (k : String) (h : alget st k = none) :
    jGet (browserExportBlob st) k = none := by
  show (jsonValueObj (objOfEntries st)).find k = none
  rw [find_eq_alget_toList, toList_jsonValueObj, alget_map_snd, toList_objOfEntries]
  rw [alget_foldl_alset_none st [] k rfl h]
  rfl

/-- Reading the workspace keys back out of an imported flat-map store
recovers the original workspace list. -/
theorem browserWsList_of_import (esJ : List (String × JVal)) (L : List JVal)
    (hfilter : esJ.filter (fun e => strStarts e.1 "workspace_") =
      L.map (fun v => ("workspace_" ++ idOf v, v)))
    (hnd : nodupKeys esJ = true)
    (htr : ∀ v ∈ L, truthy v = true) :
    browserWsList esJ = L := by
  unfold browserWsList
  rw [filter_fst_map, hfilter, List.map_map]
  apply filterMap_map_self
  intro v hv
  have hmem : ("workspace_" ++ idOf v, v) ∈ esJ := by
    have h1 : ("workspace_" ++ idOf v, v) ∈ L.map (fun v => ("workspace_" ++ idOf v, v)) :=
      List.mem_map_of_mem _ hv
    rw [← hfilter] at h1
    exact List.mem_of_mem_filter h1
  have hget : alget esJ ("workspace_" ++ idOf v) = some v :=
    alget_of_mem_nodup esJ _ v hnd hmem
  simp [Function.comp, hget, htr v hv]

theorem truthy_of_mem_davWsList (st : DavSt) (v : JVal) (h : v ∈ davWsList st) :
    truthy v = true := by
  obtain ⟨_, _, _, ht⟩ := mem_davWsList st v h
  exact ht

/-! Manager-level computations used by the migration claim. -/

theorem mgrGAW_browser (m : MState) (w : World) (hact : m.active = .browser) :
    mgrGetAllWorkspaces (m, w) = ((m, w), .ok (browserWsList w.browser)) := by
  unfold mgrGetAllWorkspaces
  rw [ewf_eq]
  simp [activeGetAllWorkspaces, hact, browserGetAllWorkspaces]

theorem mgrGAW_webdav (m : MState) (w : World) (c : WebCfg)
    (hact : m.active = .webdav c) (hr : w.davReachable = true) :
    mgrGetAllWorkspaces (m, w) = ((m, w), .ok (davWsList w.dav)) := by
  unfold mgrGetAllWorkspaces
  rw [ewf_eq]
  simp [activeGetAllWorkspaces, hact, hr, davGAW_reach]

theorem mgrGAW_local_fresh (m : MState) (w : World) (path : String)
    (hact : m.active = .local path false) (hg : w.localGrants = true)
    (hd : ∀ e ∈ w.localDir, isWsFile e.1 = false) :
    mgrGetAllWorkspaces (m, w) = (({ m with active := .local path true }, w), .ok []) := by
  unfold mgrGetAllWorkspaces
  rw [ewf_eq]
  rcases w with ⟨wb, la, lg, ld, dv, dr, ck⟩
  have hg2 : lg = true := hg
  subst hg2
  have hd2 : ∀ e ∈ ld, isWsFile e.1 = false := hd
  simp [activeGetAllWorkspaces, hact, localGetAllWorkspaces, ensureDir, localStOf,
    putLocalSt, filter_eq_nil_of_none ld _ hd2]

theorem mgrExport_browser (m : MState) (w : World) (hact : m.active = .browser) :
    mgrExportData (m, w) = ((m, w), .ok (browserExportBlob w.browser)) := by
  unfold mgrExportData
  rw [ewf_eq]
  simp [activeExportData, hact, browserExportData]

theorem mgrExport_webdav (m : MState) (w : World) (c : WebCfg)
    (es : List (String × JVal)) (hact : m.active = .webdav c)
    (hr : w.davReachable = true)
    (hes : davExportEntries true w.dav (davWsList w.dav) = .ok es) :
    mgrExportData (m, w) = ((m, w), .ok (.obj (jsonValueObj (objOfEntries es)))) := by
  have hdavexp : davExportData true w.dav = .ok (.obj (jsonValueObj (objOfEntries es))) := by
    simp [davExportData, davGAW_reach, hes]
  unfold mgrExportData
  rw [ewf_eq]
  simp [activeExportData, hact, hr, hdavexp]

/-- C5 (amended): `migrateData` pipes the raw export blob into the
target's import, so cross-kind migration preserves the workspace set
only when the two formats happen to agree.  Migrating from WebDAV to
browser preserves the listed workspaces (both use the flat
`workspace_<id>`/`page_<id>` map); migrating from browser to local
imports nothing — the local provider looks for `workspaces`/`pages`
fields the flat browser export does not have — so the manager, now
pointed at the local provider, lists no workspaces at all. -/
theorem C5_migration_format_dependent :
    (∀ (m : MState) (w : World) (c : WebCfg) (es : List (String × JVal)),
      m.active = .webdav c →
      w.davReachable = true →
      (∀ v ∈ davWsList w.dav, dateFree v = true) →
      davExportEntries true w.dav (davWsList w.dav) = .ok es →
      nodupKeys es = true →
      mgrGetAllWorkspaces (m, w) = ((m, w), .ok (davWsList w.dav)) ∧
      ∃ w2 : World,
        migrateData ⟨"browser", none, none⟩ (m, w) =
          ((⟨⟨"browser", none, none⟩, .browser⟩, w2), .ok ()) ∧
        mgrGetAllWorkspaces (⟨⟨"browser", none, none⟩, .browser⟩, w2) =
          ((⟨⟨"browser", none, none⟩, .browser⟩, w2), .ok (davWsList w.dav))) ∧
    (∀ (m : MState) (w : World),
      m.active = .browser →
      w.localAvail = true →
      w.localGrants = true →
      alget w.browser "workspaces" = none →
      alget w.browser "pages" = none →
      (∀ e ∈ w.localDir, isWsFile e.1 = false) →
      mgrGetAllWorkspaces (m, w) = ((m, w), .ok (browserWsList w.browser)) ∧
      migrateData ⟨"local", some "/notes", none⟩ (m, w) =
        ((⟨⟨"local", some "/notes", none⟩, .local "/notes" false⟩, w), .ok ()) ∧
      mgrGetAllWorkspaces (⟨⟨"local", some "/notes", none⟩, .local "/notes" false⟩, w) =
        ((⟨⟨"local", some "/notes", none⟩, .local "/notes" true⟩, w), .ok [])) := by
  constructor
  · intro m w c es hact hr hdf hes hnd
    refine ⟨mgrGAW_webdav m w c hact hr, ?_⟩
    have hexp := mgrExport_webdav m w c es hact hr hes
    have hentries : jsEntries (.obj (jsonValueObj (objOfEntries es))) =
        es.map (fun kv => (kv.1, jsonValue kv.2)) := by
      show (jsonValueObj (objOfEntries es)).toList = _
      rw [toList_jsonValueObj, toList_objOfEntries_nodup es hnd]
    have hndJ : nodupKeys (es.map (fun kv => (kv.1, jsonValue kv.2))) = true := by
      rw [nodupKeys_map_snd]
      exact hnd
    have himp : browserImportData w.browser (.obj (jsonValueObj (objOfEntries es))) =
        (es.map (fun kv => (kv.1, jsonValue kv.2)), .ok ()) := by
      unfold browserImportData
      rw [hentries, foldl_alset_nil _ hndJ]
    have hcp : createProvider ⟨"browser", none, none⟩ = .ok .browser := rfl
    refine ⟨{ w with browser := es.map (fun kv => (kv.1, jsonValue kv.2)) }, ?_, ?_⟩
    · simp [migrateData, hexp, finishMigrate, hcp, provIsAvailable, provImportData, himp]
    · have hlist : browserWsList (es.map (fun kv => (kv.1, jsonValue kv.2))) =
          davWsList w.dav := by
        apply browserWsList_of_import
        · rw [filter_key_map jsonValue (fun k => strStarts k "workspace_") es,
            davExportEntries_ws_filter w.dav (davWsList w.dav) es hes, List.map_map]
          apply map_congr_mem
          intro v hv
          simp [Function.comp, jsonValue_of_dateFree v (hdf v hv)]
        · exact hndJ
        · intro v hv
          exact truthy_of_mem_davWsList w.dav v hv
      have hpost := mgrGAW_browser ⟨⟨"browser", none, none⟩, .browser⟩
        { w with browser := es.map (fun kv => (kv.1, jsonValue kv.2)) } rfl
      rw [hlist] at hpost
      exact hpost
  · intro m w hact hla hlg hw hp hd
    refine ⟨mgrGAW_browser m w hact, ?_, ?_⟩
    · have hexp := mgrExport_browser m w hact
      have hcp : createProvider ⟨"local", some "/notes", none⟩ = .ok (.local "/notes" false) := rfl
      have hjw : jGet (browserExportBlob w.browser) "workspaces" = none :=
        jGet_browserExportBlob w.browser "workspaces" hw
      have hjp : jGet (browserExportBlob w.browser) "pages" = none :=
        jGet_browserExportBlob w.browser "pages" hp
      rcases w with ⟨wb, la, lg, ld, dv, dr, ck⟩
      have hla2 : la = true := hla
      subst hla2
      have himp : localImportData ⟨false, lg, ld⟩ (browserExportBlob wb) =
          (⟨false, lg, ld⟩, .ok ()) := by
        simp [localImportData, hjw, hjp]
      simp [migrateData, hexp, finishMigrate, hcp, provIsAvailable,
        provImportData, himp, putLocalSt, localStOf]
    · exact mgrGAW_local_fresh ⟨⟨"local", some "/notes", none⟩, .local "/notes" false⟩
        w "/notes" rfl hlg hd

/-- The world of the counterexample: the shared browser store holds one
workspace, the pickable local directory is empty. -/
def w5 : World := ⟨[("workspace_default", sampleWs)], true, true, [], ⟨[], []⟩, true, 0⟩

/-- C5 counterexample: with one workspace stored under the active browser
provider, `migrateData` to a local-directory config succeeds, yet
`getAllWorkspaces` on the manager (now pointed at the local provider)
returns no workspaces at all — the set is not preserved. -/
theorem C5_counterexample :
    mgrGetAllWorkspaces (⟨⟨"browser", none, none⟩, .browser⟩, w5) =
      ((⟨⟨"browser", none, none⟩, .browser⟩, w5), .ok [sampleWs]) ∧
    (migrateData ⟨"local", some "/notes", none⟩
      (⟨⟨"browser", none, none⟩, .browser⟩, w5)).2 = .ok () ∧
    (mgrGetAllWorkspaces (migrateData ⟨"local", some "/notes", none⟩
      (⟨⟨"browser", none, none⟩, .browser⟩, w5)).1).2 = .ok [] ∧
    (Except.ok [] : Except String (List JVal)) ≠ .ok [sampleWs] := by
  refine ⟨rfl, rfl, rfl, ?_⟩
  simp

/-- The WebDAV server of the witness: the `default` workspace file holds
the JSON image of `sampleWs` (as an earlier PUT would have stored it). -/
def davWitSt : DavSt := ⟨[("default", jsonValue sampleWs)], []⟩

def wMig : World := ⟨[], true, true, [], davWitSt, true, 3⟩

theorem C5_witness :
    (mgrGetAllWorkspaces (⟨⟨"webdav", none, some cfgW⟩, .webdav cfgW⟩, wMig) =
      ((⟨⟨"webdav", none, some cfgW⟩, .webdav cfgW⟩, wMig), .ok (davWsList wMig.dav)) ∧
     ∃ w2 : World,
       migrateData ⟨"browser", none, none⟩ (⟨⟨"webdav", none, some cfgW⟩, .webdav cfgW⟩, wMig) =
         ((⟨⟨"browser", none, none⟩, .browser⟩, w2), .ok ()) ∧
       mgrGetAllWorkspaces (⟨⟨"browser", none, none⟩, .browser⟩, w2) =
         ((⟨⟨"browser", none, none⟩, .browser⟩, w2), .ok (davWsList wMig.dav))) ∧
    (mgrGetAllWorkspaces (⟨⟨"browser", none, none⟩, .browser⟩, w5) =
      ((⟨⟨"browser", none, none⟩, .browser⟩, w5), .ok (browserWsList w5.browser)) ∧
     migrateData ⟨"local", some "/notes", none⟩ (⟨⟨"browser", none, none⟩, .browser⟩, w5) =
       ((⟨⟨"local", some "/notes", none⟩, .local "/notes" false⟩, w5), .ok ()) ∧
     mgrGetAllWorkspaces (⟨⟨"local", some "/notes", none⟩, .local "/notes" false⟩, w5) =
       ((⟨⟨"local", some "/notes", none⟩, .local "/notes" true⟩, w5), .ok [])) := by
  constructor
  · apply C5_migration_format_dependent.1 ⟨⟨"webdav", none, some cfgW⟩, .webdav cfgW⟩
      wMig cfgW [("workspace_default", jsonValue sampleWs)] rfl rfl
    · intro v hv
      have h1 : davWsList wMig.dav = [jsonValue sampleWs] := rfl
      rw [h1, List.mem_singleton] at hv
      subst hv
      exact dateFree_jsonValue sampleWs
    · rfl
    · rfl
  · apply C5_migration_format_dependent.2 ⟨⟨"browser", none, none⟩, .browser⟩ w5
      rfl rfl rfl rfl rfl
    intro e he
    simp [w5] at he

end NoteBook
